import Mathlib

/-! ### Definitions -/

inductive AccountType where
  | ASSET
  | LIABILITY
  | EQUITY
  | REVENUE
  | EXPENSE
deriving DecidableEq

structure Date where
  year : Nat
  month : Nat
  day : Nat
deriving DecidableEq

inductive PyErr where
  | valueError
  | keyError
  | invalidOperation
deriving DecidableEq

structure Account where
  name : String
  type : AccountType
  balance : ℚ
deriving DecidableEq

instance : Inhabited Account := ⟨⟨"", .ASSET, 0⟩⟩

def Account.debit (a : Account) (amount : ℚ) : Account :=
  if a.type = .ASSET ∨ a.type = .EXPENSE then
    { a with balance := a.balance + amount }
  else
    { a with balance := a.balance - amount }

def Account.credit (a : Account) (amount : ℚ) : Account :=
  if a.type = .ASSET ∨ a.type = .EXPENSE then
    { a with balance := a.balance - amount }
  else
    { a with balance := a.balance + amount }

structure TEntry where
  account : Nat
  amount : ℚ
deriving DecidableEq

structure Transaction where
  date : Date
  description : String
  debits : List TEntry
  credits : List TEntry
deriving DecidableEq

def Transaction.add_debit (t : Transaction) (e : TEntry) : Transaction :=
  { t with debits := t.debits ++ [e] }

def Transaction.add_credit (t : Transaction) (e : TEntry) : Transaction :=
  { t with credits := t.credits ++ [e] }

def sumAmounts (es : List TEntry) : ℚ :=
  (es.map (·.amount)).sum

def Transaction.is_balanced (t : Transaction) : Bool :=
  sumAmounts t.debits == sumAmounts t.credits

def updateAt : List Account → Nat → (Account → Account) → List Account
  | [], _, _ => []
  | a :: as, 0, f => f a :: as
  | a :: as, n + 1, f => a :: updateAt as n f

def Transaction.post (t : Transaction) (accounts : List Account) : List Account :=
  let afterDebits :=
    t.debits.foldl (fun acc e => updateAt acc e.account (fun a => a.debit e.amount)) accounts
  t.credits.foldl (fun acc e => updateAt acc e.account (fun a => a.credit e.amount)) afterDebits

structure Ledger where
  name : String
  accounts : List Account
  transactions : List Transaction
deriving DecidableEq

def Ledger.new (name : String) : Ledger :=
  ⟨name, [], []⟩

def Ledger.create_account (L : Ledger) (name : String) (account_type : AccountType) :
    Ledger × Nat :=
  ({ L with accounts := L.accounts ++ [⟨name, account_type, 0⟩] }, L.accounts.length)

def Ledger.get_or_create_account (L : Ledger) (name : String) (account_type : AccountType) :
    Ledger × Nat :=
  match L.accounts.findIdx? (fun a => a.name == name) with
  | some i => (L, i)
  | none => L.create_account name account_type

def Ledger.routeEntry (accounts : List Account) (t : Transaction) (e : TEntry) : Transaction :=
  if (accounts.getD e.account default).type = .ASSET ∨
      (accounts.getD e.account default).type = .EXPENSE then
    if 0 ≤ e.amount then t.add_debit e
    else t.add_credit ⟨e.account, |e.amount|⟩
  else
    if 0 ≤ e.amount then t.add_credit e
    else t.add_debit ⟨e.account, |e.amount|⟩

def Ledger.routeAll (accounts : List Account) (d : Date) (description : String)
    (entries : List TEntry) : Transaction :=
  entries.foldl (Ledger.routeEntry accounts) ⟨d, description, [], []⟩

def Ledger.record_transaction (L : Ledger) (d : Date) (description : String)
    (entries : List TEntry) : Except PyErr Ledger :=
  let t := Ledger.routeAll L.accounts d description entries
  if t.is_balanced then
    .ok { L with accounts := t.post L.accounts, transactions := L.transactions ++ [t] }
  else
    .error .valueError

def signedBalance (a : Account) : ℚ :=
  if a.type = .ASSET ∨ a.type = .EXPENSE then a.balance else -a.balance

def Ledger.signedSum (L : Ledger) : ℚ :=
  (L.accounts.map signedBalance).sum

def containsAux (kw : List Char) : List Char → Bool
  | [] => kw.isEmpty
  | c :: t => kw.isPrefixOf (c :: t) || containsAux kw t

def strContains (hay kw : String) : Bool :=
  containsAux kw.data hay.data

def lowerStr (s : String) : String :=
  ⟨s.data.map Char.toLower⟩

def anyKeyword (name_lower : String) (kws : List String) : Bool :=
  kws.any (fun kw => strContains name_lower kw)

def asset_keywords : List String :=
  ["cash", "receivable", "inventory", "land", "building", "equipment", "asset"]

def liability_keywords : List String :=
  ["payable", "loan", "debt", "liability", "deposits payable"]

def equity_keywords : List String :=
  ["capital", "equity", "retained earnings", "owner"]

def revenue_keywords : List String :=
  ["revenue", "income", "sales", "interest income", "fee"]

def expense_keywords : List String :=
  ["expense", "wages", "rent", "supplies", "maintenance", "courier", "cost"]

def Ledger.infer_account_type (account_name : String) : AccountType :=
  let name_lower := lowerStr account_name
  if anyKeyword name_lower asset_keywords then .ASSET
  else if anyKeyword name_lower liability_keywords then .LIABILITY
  else if anyKeyword name_lower equity_keywords then .EQUITY
  else if anyKeyword name_lower revenue_keywords then .REVENUE
  else if anyKeyword name_lower expense_keywords then .EXPENSE
  else .ASSET

instance : Inhabited TEntry := ⟨⟨0, 0⟩⟩

def nameAt (accounts : List Account) (i : Nat) : String :=
  (accounts.getD i default).name

def typeAt (accounts : List Account) (i : Nat) : AccountType :=
  (accounts.getD i default).type

structure JEntry where
  account : String
  account_type : AccountType
  amount : ℚ
deriving DecidableEq

structure JTxn where
  date : Date
  description : String
  debits : List JEntry
  credits : List JEntry
deriving DecidableEq

def resolveEntry (accounts : List Account) (e : TEntry) : JEntry :=
  ⟨nameAt accounts e.account, typeAt accounts e.account, e.amount⟩

def resolveTxn (accounts : List Account) (t : Transaction) : JTxn :=
  ⟨t.date, t.description, t.debits.map (resolveEntry accounts),
    t.credits.map (resolveEntry accounts)⟩

def Ledger.export_transactions_to_json (L : Ledger) : List JTxn :=
  L.transactions.map (resolveTxn L.accounts)

def importJEntries (st : Ledger × List TEntry) (es : List JEntry) : Ledger × List TEntry :=
  es.foldl
    (fun st je =>
      let p := st.1.get_or_create_account je.account je.account_type
      (p.1, st.2 ++ [⟨p.2, je.amount⟩]))
    st

def Ledger.importRowJSON (L : Ledger) (row : JTxn) : Ledger × Nat :=
  let st1 := importJEntries (L, []) row.debits
  let st2 := importJEntries (st1.1, []) row.credits
  let t : Transaction := ⟨row.date, row.description, st1.2, st2.2⟩
  if t.is_balanced then
    ({ st2.1 with accounts := t.post st2.1.accounts,
                  transactions := st2.1.transactions ++ [t] }, 1)
  else (st2.1, 0)

def Ledger.import_transactions_from_json (L : Ledger) (rows : List JTxn) : Ledger × Nat :=
  rows.foldl
    (fun st row =>
      let p := Ledger.importRowJSON st.1 row
      (p.1, st.2 + p.2))
    (L, 0)

inductive RawDate where
  | valid (d : Date)
  | malformed
deriving DecidableEq

inductive RawDec where
  | num (q : ℚ)
  | emptyStr
  | nonNumeric
deriving DecidableEq

def parseDate : RawDate → Except PyErr Date
  | .valid d => .ok d
  | .malformed => .error .valueError

def parseDec : RawDec → Except PyErr ℚ
  | .num q => .ok q
  | .emptyStr => .error .invalidOperation
  | .nonNumeric => .error .invalidOperation

def truthyDec : Option RawDec → Bool
  | none => false
  | some .emptyStr => false
  | some _ => true

structure CsvRow where
  date : Option RawDate
  description : Option String
  debit_account : Option String
  debit_amount : Option RawDec
  credit_account : Option String
  credit_amount : Option RawDec
  credit_account_2 : Option String
  credit_amount_2 : Option RawDec
deriving DecidableEq

def pyStrip (s : String) : String :=
  ⟨(((s.data.dropWhile Char.isWhitespace).reverse.dropWhile Char.isWhitespace).reverse)⟩

def splitCommaAux : List Char → List Char → List String
  | [], cur => [⟨cur.reverse⟩]
  | c :: rest, cur =>
    if c = ',' then (⟨cur.reverse⟩ : String) :: splitCommaAux rest []
    else splitCommaAux rest (c :: cur)

def joinCommaSpace : List String → String
  | [] => ""
  | [s] => s
  | s :: rest => s ++ ", " ++ joinCommaSpace rest

def splitNames (s : String) : List String :=
  ((splitCommaAux s.data []).map pyStrip).filter (fun x => x ≠ "")

def csvResolve (L : Ledger) (debit_accounts : List String) (debShare : ℚ)
    (credit_account : String) (credit_amount : ℚ)
    (credit_account_2 : String) (credit_amount_2 : ℚ) :
    Ledger × List TEntry × List TEntry :=
  let st := debit_accounts.foldl
    (fun (st : Ledger × List TEntry) nm =>
      let p := st.1.get_or_create_account nm (Ledger.infer_account_type nm)
      (p.1, st.2 ++ [⟨p.2, debShare⟩]))
    (L, [])
  let c1 :=
    if credit_account ≠ "" then
      let p := st.1.get_or_create_account credit_account
        (Ledger.infer_account_type credit_account)
      (p.1, [(⟨p.2, credit_amount⟩ : TEntry)])
    else (st.1, [])
  let c2 :=
    if credit_account_2 ≠ "" ∧ 0 < credit_amount_2 then
      let p := c1.1.get_or_create_account credit_account_2
        (Ledger.infer_account_type credit_account_2)
      (p.1, [(⟨p.2, credit_amount_2⟩ : TEntry)])
    else (c1.1, [])
  (c2.1, st.2, c1.2 ++ c2.2)

def Ledger.importRowCSV (L : Ledger) (r : CsvRow) : Ledger × Option PyErr :=
  match r.date with
  | none => (L, some .keyError)
  | some rd =>
    match parseDate rd with
    | .error e => (L, some e)
    | .ok d =>
      match r.description with
      | none => (L, some .keyError)
      | some description =>
        let debit_accounts := splitNames (r.debit_account.getD "")
        match parseDec (r.debit_amount.getD (.num 0)) with
        | .error e => (L, some e)
        | .ok debit_amount =>
          let credit_account := pyStrip (r.credit_account.getD "")
          match parseDec (r.credit_amount.getD (.num 0)) with
          | .error e => (L, some e)
          | .ok credit_amount =>
            let credit_account_2 := pyStrip (r.credit_account_2.getD "")
            match
              (if truthyDec r.credit_amount_2 then parseDec (r.credit_amount_2.getD (.num 0))
               else .ok 0) with
            | .error e => (L, some e)
            | .ok credit_amount_2 =>
              let res := csvResolve L debit_accounts
                (debit_amount / (debit_accounts.length : ℚ))
                credit_account credit_amount credit_account_2 credit_amount_2
              let t : Transaction := ⟨d, description, res.2.1, res.2.2⟩
              if t.is_balanced then
                ({ res.1 with accounts := t.post res.1.accounts,
                              transactions := res.1.transactions ++ [t] }, none)
              else (res.1, some .valueError)

def Ledger.importCSVGo : Ledger → Nat → List CsvRow → Ledger × Except PyErr Nat
  | L, count, [] => (L, .ok count)
  | L, count, r :: rs =>
    match Ledger.importRowCSV L r with
    | (L', none) => Ledger.importCSVGo L' (count + 1) rs
    | (L', some e) =>
      if e = .valueError ∨ e = .keyError then Ledger.importCSVGo L' count rs
      else (L', .error e)

def Ledger.import_transactions_from_csv (L : Ledger) (rows : List CsvRow) :
    Ledger × Except PyErr Nat :=
  Ledger.importCSVGo L 0 rows

def Ledger.exportRowCSV (accounts : List Account) (t : Transaction) : CsvRow :=
  { date := some (.valid t.date),
    description := some t.description,
    debit_account :=
      some (joinCommaSpace (t.debits.map (fun e => nameAt accounts e.account))),
    debit_amount := some (.num (sumAmounts t.debits)),
    credit_account :=
      some (match t.credits with | [] => "" | e :: _ => nameAt accounts e.account),
    credit_amount :=
      some (match t.credits with | [] => .num 0 | e :: _ => .num e.amount),
    credit_account_2 :=
      some (if 1 < t.credits.length then nameAt accounts (t.credits.getD 1 default).account
            else ""),
    credit_amount_2 :=
      some (if 1 < t.credits.length then .num (t.credits.getD 1 default).amount
            else .emptyStr) }

def Ledger.export_transactions_to_csv (L : Ledger) : List CsvRow :=
  L.transactions.map (Ledger.exportRowCSV L.accounts)

def dSign (ty : AccountType) : ℚ :=
  if ty = .ASSET ∨ ty = .EXPENSE then 1 else -1

def accSum (l : List Account) : ℚ :=
  (l.map signedBalance).sum

def namesOf (l : List Account) : List String :=
  l.map (·.name)

inductive Reach : Ledger → Prop where
  | init (nm : String) : Reach (Ledger.new nm)
  | create {L : Ledger} (nm : String) (ty : AccountType) : Reach L →
      (∀ a ∈ L.accounts, a.name ≠ nm) → Reach (L.create_account nm ty).1
  | getOrCreate {L : Ledger} (nm : String) (ty : AccountType) : Reach L →
      Reach (L.get_or_create_account nm ty).1
  | record {L L' : Ledger} (d : Date) (desc : String) (entries : List TEntry) : Reach L →
      (∀ e ∈ entries, e.account < L.accounts.length) →
      L.record_transaction d desc entries = .ok L' → Reach L'
  | importJSON {L : Ledger} (rows : List JTxn) : Reach L →
      Reach (L.import_transactions_from_json rows).1
  | importCSV {L : Ledger} (rows : List CsvRow) : Reach L →
      Reach (L.import_transactions_from_csv rows).1

def routeDebitSpec (accounts : List Account) (e : TEntry) : Option TEntry :=
  if typeAt accounts e.account = .ASSET ∨ typeAt accounts e.account = .EXPENSE then
    if 0 ≤ e.amount then some e else none
  else
    if 0 ≤ e.amount then none else some ⟨e.account, |e.amount|⟩

def routeCreditSpec (accounts : List Account) (e : TEntry) : Option TEntry :=
  if typeAt accounts e.account = .ASSET ∨ typeAt accounts e.account = .EXPENSE then
    if 0 ≤ e.amount then none else some ⟨e.account, |e.amount|⟩
  else
    if 0 ≤ e.amount then some e else none

def specCategories : List (AccountType × List String) :=
  [(.ASSET, ["cash", "receivable", "inventory", "land", "building", "equipment", "asset"]),
   (.LIABILITY, ["payable", "loan", "debt", "liability"]),
   (.EQUITY, ["capital", "equity", "retained earnings", "owner"]),
   (.REVENUE, ["revenue", "income", "sales", "interest income", "fee"]),
   (.EXPENSE, ["expense", "wages", "rent", "supplies", "maintenance", "courier", "cost"])]

def inferTypeSpec (name : String) : AccountType :=
  match specCategories.find? (fun p => anyKeyword (lowerStr name) p.2) with
  | some p => p.1
  | none => .ASSET

def entriesValidIn (n : Nat) (t : Transaction) : Prop :=
  (∀ e ∈ t.debits, e.account < n) ∧ (∀ e ∈ t.credits, e.account < n)

def entryFlowAt (t : Transaction) (i : Nat) : ℚ :=
  sumAmounts (t.debits.filter (fun e => e.account == i)) -
    sumAmounts (t.credits.filter (fun e => e.account == i))

def flowSum (ts : List Transaction) (i : Nat) : ℚ :=
  (ts.map (fun t => entryFlowAt t i)).sum

structure WF (L : Ledger) : Prop where
  nodup : (namesOf L.accounts).Nodup
  valid : ∀ t ∈ L.transactions, entriesValidIn L.accounts.length t
  bal : ∀ t ∈ L.transactions, sumAmounts t.debits = sumAmounts t.credits
  char : ∀ i, i < L.accounts.length →
    (L.accounts.getD i default).balance =
      dSign (typeAt L.accounts i) * flowSum L.transactions i

def sumJ (es : List JEntry) : ℚ :=
  (es.map (·.amount)).sum

def balanceOfName (L : Ledger) (nm : String) : ℚ :=
  ((L.accounts.filter (fun a => a.name == nm)).map (·.balance)).sum

def jNetName (rows : List JTxn) (name : String) : ℚ :=
  (rows.map (fun row =>
    ((row.debits.filter (fun je => je.account == name)).map
      (fun je => dSign je.account_type * je.amount)).sum -
    ((row.credits.filter (fun je => je.account == name)).map
      (fun je => dSign je.account_type * je.amount)).sum)).sum

def typeConsistent (rows : List JTxn) : Prop :=
  ∀ row ∈ rows, ∀ row' ∈ rows, ∀ je ∈ row.debits ++ row.credits,
    ∀ je' ∈ row'.debits ++ row'.credits,
      je.account = je'.account → je.account_type = je'.account_type

def accountsConsistent (rows : List JTxn) (L : Ledger) : Prop :=
  ∀ a ∈ L.accounts, ∀ row ∈ rows, ∀ je ∈ row.debits ++ row.credits,
    je.account = a.name → je.account_type = a.type

/-! ### Theorems -/

theorem Account.debit_name (a : Account) (q : ℚ) : (a.debit q).name = a.name := by
  unfold Account.debit; split <;> rfl

theorem Account.debit_type (a : Account) (q : ℚ) : (a.debit q).type = a.type := by
  unfold Account.debit; split <;> rfl

theorem Account.credit_name (a : Account) (q : ℚ) : (a.credit q).name = a.name := by
  unfold Account.credit; split <;> rfl

theorem Account.credit_type (a : Account) (q : ℚ) : (a.credit q).type = a.type := by
  unfold Account.credit; split <;> rfl

theorem Account.debit_balance (a : Account) (q : ℚ) :
    (a.debit q).balance = a.balance + dSign a.type * q := by
  unfold Account.debit dSign
  by_cases h : a.type = .ASSET ∨ a.type = .EXPENSE
  · simp [h]
  · simp [h]; ring

theorem Account.credit_balance (a : Account) (q : ℚ) :
    (a.credit q).balance = a.balance - dSign a.type * q := by
  unfold Account.credit dSign
  by_cases h : a.type = .ASSET ∨ a.type = .EXPENSE
  · simp [h]
  · simp [h]

theorem signedBalance_eq (a : Account) : signedBalance a = dSign a.type * a.balance := by
  unfold signedBalance dSign
  by_cases h : a.type = .ASSET ∨ a.type = .EXPENSE <;> simp [h]

theorem dSign_mul_self (ty : AccountType) : dSign ty * dSign ty = 1 := by
  unfold dSign; split <;> norm_num

theorem signedBalance_debit (a : Account) (q : ℚ) :
    signedBalance (a.debit q) = signedBalance a + q := by
  rw [signedBalance_eq, signedBalance_eq, Account.debit_type, Account.debit_balance]
  have h := dSign_mul_self a.type
  calc dSign a.type * (a.balance + dSign a.type * q)
      = dSign a.type * a.balance + dSign a.type * dSign a.type * q := by ring
    _ = dSign a.type * a.balance + q := by rw [h]; ring

theorem signedBalance_credit (a : Account) (q : ℚ) :
    signedBalance (a.credit q) = signedBalance a - q := by
  rw [signedBalance_eq, signedBalance_eq, Account.credit_type, Account.credit_balance]
  have h := dSign_mul_self a.type
  calc dSign a.type * (a.balance - dSign a.type * q)
      = dSign a.type * a.balance - dSign a.type * dSign a.type * q := by ring
    _ = dSign a.type * a.balance - q := by rw [h]; ring

theorem updateAt_length (l : List Account) (i : Nat) (f : Account → Account) :
    (updateAt l i f).length = l.length := by
  induction l generalizing i with
  | nil => rfl
  | cons a as ih => cases i <;> simp [updateAt, ih]

theorem getD_updateAt_self (l : List Account) (i : Nat) (f : Account → Account) (d : Account)
    (h : i < l.length) : (updateAt l i f).getD i d = f (l.getD i d) := by
  induction l generalizing i with
  | nil => simp at h
  | cons a as ih =>
    cases i with
    | zero => rfl
    | succ n =>
      simp only [updateAt, List.getD_cons_succ]
      exact ih n (by simpa using h)

theorem getD_updateAt_ne (l : List Account) (i j : Nat) (f : Account → Account) (d : Account)
    (h : j ≠ i) : (updateAt l i f).getD j d = l.getD j d := by
  induction l generalizing i j with
  | nil => rfl
  | cons a as ih =>
    cases i with
    | zero =>
      cases j with
      | zero => exact absurd rfl h
      | succ m => rfl
    | succ n =>
      cases j with
      | zero => rfl
      | succ m =>
        simp only [updateAt, List.getD_cons_succ]
        exact ih n m (fun hh => h (by omega))

theorem updateAt_map {β : Type} (g : Account → β) (f : Account → Account)
    (hf : ∀ a, g (f a) = g a) (l : List Account) (i : Nat) :
    (updateAt l i f).map g = l.map g := by
  induction l generalizing i with
  | nil => rfl
  | cons a as ih => cases i <;> simp [updateAt, hf, ih]

theorem accSum_cons (a : Account) (l : List Account) :
    accSum (a :: l) = signedBalance a + accSum l := by
  simp [accSum]

theorem accSum_updateAt_debit (l : List Account) (i : Nat) (q : ℚ) (h : i < l.length) :
    accSum (updateAt l i (fun a => a.debit q)) = accSum l + q := by
  induction l generalizing i with
  | nil => simp at h
  | cons a as ih =>
    cases i with
    | zero => simp [updateAt, accSum_cons, signedBalance_debit]; ring
    | succ n =>
      have := ih n (by simpa using h)
      simp only [updateAt, accSum_cons, this]; ring

theorem accSum_updateAt_credit (l : List Account) (i : Nat) (q : ℚ) (h : i < l.length) :
    accSum (updateAt l i (fun a => a.credit q)) = accSum l - q := by
  induction l generalizing i with
  | nil => simp at h
  | cons a as ih =>
    cases i with
    | zero => simp [updateAt, accSum_cons, signedBalance_credit]; ring
    | succ n =>
      have := ih n (by simpa using h)
      simp only [updateAt, accSum_cons, this]; ring

theorem sumAmounts_cons (e : TEntry) (es : List TEntry) :
    sumAmounts (e :: es) = e.amount + sumAmounts es := by
  simp [sumAmounts]

theorem sumAmounts_append (es fs : List TEntry) :
    sumAmounts (es ++ fs) = sumAmounts es + sumAmounts fs := by
  simp [sumAmounts]

theorem foldl_debits_length (es : List TEntry) (l : List Account) :
    (es.foldl (fun acc e => updateAt acc e.account (fun a => a.debit e.amount)) l).length
      = l.length := by
  induction es generalizing l with
  | nil => rfl
  | cons e es ih => simp [List.foldl_cons, ih, updateAt_length]

theorem foldl_credits_length (es : List TEntry) (l : List Account) :
    (es.foldl (fun acc e => updateAt acc e.account (fun a => a.credit e.amount)) l).length
      = l.length := by
  induction es generalizing l with
  | nil => rfl
  | cons e es ih => simp [List.foldl_cons, ih, updateAt_length]

theorem accSum_foldl_debits (es : List TEntry) (l : List Account)
    (h : ∀ e ∈ es, e.account < l.length) :
    accSum (es.foldl (fun acc e => updateAt acc e.account (fun a => a.debit e.amount)) l)
      = accSum l + sumAmounts es := by
  induction es generalizing l with
  | nil => simp [sumAmounts]
  | cons e es ih =>
    have h1 : e.account < l.length := h e (by simp)
    have h2 : ∀ e' ∈ es, e'.account < (updateAt l e.account (fun a => a.debit e.amount)).length := by
      intro e' he'; rw [updateAt_length]; exact h e' (by simp [he'])
    simp only [List.foldl_cons, ih _ h2, accSum_updateAt_debit _ _ _ h1, sumAmounts_cons]
    ring

theorem accSum_foldl_credits (es : List TEntry) (l : List Account)
    (h : ∀ e ∈ es, e.account < l.length) :
    accSum (es.foldl (fun acc e => updateAt acc e.account (fun a => a.credit e.amount)) l)
      = accSum l - sumAmounts es := by
  induction es generalizing l with
  | nil => simp [sumAmounts]
  | cons e es ih =>
    have h1 : e.account < l.length := h e (by simp)
    have h2 : ∀ e' ∈ es, e'.account < (updateAt l e.account (fun a => a.credit e.amount)).length := by
      intro e' he'; rw [updateAt_length]; exact h e' (by simp [he'])
    simp only [List.foldl_cons, ih _ h2, accSum_updateAt_credit _ _ _ h1, sumAmounts_cons]
    ring

theorem findIdx?_some_facts {α : Type} (p : α → Bool) (d : α) :
    ∀ (l : List α) (s i : Nat), List.findIdx? p l s = some i →
      s ≤ i ∧ i - s < l.length ∧ p (l.getD (i - s) d) = true := by
  intro l
  induction l with
  | nil => intro s i h; simp [List.findIdx?] at h
  | cons x xs ih =>
    intro s i h
    rw [List.findIdx?_cons] at h
    by_cases hp : p x = true
    · simp only [hp, if_true, Option.some.injEq] at h
      subst h
      refine ⟨le_refl _, by simp, ?_⟩
      simpa using hp
    · simp only [hp, if_false] at h
      obtain ⟨h1, h2, h3⟩ := ih (s + 1) i h
      refine ⟨by omega, by simp; omega, ?_⟩
      have hi : i - s = (i - (s + 1)) + 1 := by omega
      rw [hi, List.getD_cons_succ]
      exact h3

theorem signedBalance_zero (nm : String) (ty : AccountType) :
    signedBalance ⟨nm, ty, 0⟩ = 0 := by
  unfold signedBalance; split <;> simp

theorem accSum_append (l l' : List Account) :
    accSum (l ++ l') = accSum l + accSum l' := by
  simp [accSum]

theorem get_or_create_spec (L : Ledger) (nm : String) (ty : AccountType) :
    (L.get_or_create_account nm ty).1.name = L.name ∧
    (L.get_or_create_account nm ty).1.transactions = L.transactions ∧
    L.accounts <+: (L.get_or_create_account nm ty).1.accounts ∧
    (L.get_or_create_account nm ty).2 < (L.get_or_create_account nm ty).1.accounts.length ∧
    nameAt (L.get_or_create_account nm ty).1.accounts (L.get_or_create_account nm ty).2 = nm ∧
    accSum (L.get_or_create_account nm ty).1.accounts = accSum L.accounts ∧
    ((L.get_or_create_account nm ty).1.accounts = L.accounts ∨
      ((L.get_or_create_account nm ty).1.accounts = L.accounts ++ [⟨nm, ty, 0⟩] ∧
        (L.get_or_create_account nm ty).2 = L.accounts.length ∧
        ∀ a ∈ L.accounts, a.name ≠ nm)) := by
  unfold Ledger.get_or_create_account
  cases hf : L.accounts.findIdx? (fun a => a.name == nm) with
  | some i =>
    obtain ⟨-, h2, h3⟩ := findIdx?_some_facts (fun a => a.name == nm) default L.accounts 0 i hf
    simp only [Nat.sub_zero] at h2 h3
    refine ⟨rfl, rfl, List.prefix_refl _, h2, ?_, rfl, Or.inl rfl⟩
    simpa [nameAt] using h3
  | none =>
    have habs : ∀ a ∈ L.accounts, a.name ≠ nm := by
      intro a ha
      have := (List.findIdx?_eq_none_iff.mp hf) a ha
      simpa using this
    refine ⟨rfl, rfl, List.prefix_append _ _, ?_, ?_, ?_, Or.inr ⟨rfl, rfl, habs⟩⟩
    · simp [Ledger.create_account]
    · simp [Ledger.create_account, nameAt, List.getD_eq_getElem?_getD, List.getElem?_append]
    · simp [Ledger.create_account, accSum_append, accSum_cons, signedBalance_zero, accSum]

theorem get_or_create_nodup (L : Ledger) (nm : String) (ty : AccountType)
    (h : (namesOf L.accounts).Nodup) :
    (namesOf (L.get_or_create_account nm ty).1.accounts).Nodup := by
  obtain ⟨-, -, -, -, -, -, hcases⟩ := get_or_create_spec L nm ty
  cases hcases with
  | inl heq => rw [heq]; exact h
  | inr hnew =>
    rw [hnew.1]
    unfold namesOf
    rw [List.map_append, List.nodup_append]
    refine ⟨h, by simp, ?_⟩
    intro s hs
    simp only [List.map_cons, List.map_nil, List.mem_singleton]
    intro hx
    subst hx
    obtain ⟨a, ha, rfl⟩ := List.mem_map.mp hs
    exact absurd rfl (hnew.2.2 a ha)

theorem Transaction.post_length (t : Transaction) (l : List Account) :
    (t.post l).length = l.length := by
  unfold Transaction.post
  rw [foldl_credits_length, foldl_debits_length]

theorem accSum_post (t : Transaction) (l : List Account)
    (hd : ∀ e ∈ t.debits, e.account < l.length)
    (hc : ∀ e ∈ t.credits, e.account < l.length) :
    accSum (t.post l) = accSum l + sumAmounts t.debits - sumAmounts t.credits := by
  unfold Transaction.post
  rw [accSum_foldl_credits, accSum_foldl_debits _ _ hd]
  intro e he
  rw [foldl_debits_length]
  exact hc e he

theorem routeEntry_valid (accounts : List Account) (n : Nat) (t : Transaction) (e : TEntry)
    (ht : (∀ x ∈ t.debits, x.account < n) ∧ (∀ x ∈ t.credits, x.account < n))
    (he : e.account < n) :
    (∀ x ∈ (Ledger.routeEntry accounts t e).debits, x.account < n) ∧
    (∀ x ∈ (Ledger.routeEntry accounts t e).credits, x.account < n) := by
  unfold Ledger.routeEntry Transaction.add_debit Transaction.add_credit
  split <;> split <;>
    refine ⟨?_, ?_⟩ <;> intro x hx <;>
    simp only [List.mem_append, List.mem_singleton] at hx <;>
    first
      | exact ht.1 x hx
      | exact ht.2 x hx
      | (rcases hx with hx | hx
         · exact ht.1 x hx
         · subst hx; simpa using he)
      | (rcases hx with hx | hx
         · exact ht.2 x hx
         · subst hx; simpa using he)

theorem routeFold_valid (accounts : List Account) (n : Nat) :
    ∀ (entries : List TEntry) (t : Transaction),
      ((∀ x ∈ t.debits, x.account < n) ∧ (∀ x ∈ t.credits, x.account < n)) →
      (∀ e ∈ entries, e.account < n) →
      (∀ x ∈ (entries.foldl (Ledger.routeEntry accounts) t).debits, x.account < n) ∧
      (∀ x ∈ (entries.foldl (Ledger.routeEntry accounts) t).credits, x.account < n) := by
  intro entries
  induction entries with
  | nil => intro t ht _; exact ht
  | cons e es ih =>
    intro t ht hes
    rw [List.foldl_cons]
    exact ih _ (routeEntry_valid accounts n t e ht (hes e (by simp)))
      (fun e' he' => hes e' (by simp [he']))

theorem routeAll_valid (accounts : List Account) (n : Nat) (d : Date) (desc : String)
    (entries : List TEntry) (h : ∀ e ∈ entries, e.account < n) :
    (∀ x ∈ (Ledger.routeAll accounts d desc entries).debits, x.account < n) ∧
    (∀ x ∈ (Ledger.routeAll accounts d desc entries).credits, x.account < n) := by
  unfold Ledger.routeAll
  exact routeFold_valid accounts n entries ⟨d, desc, [], []⟩ (by simp) h

theorem record_ok_iff (L : Ledger) (d : Date) (desc : String) (entries : List TEntry)
    (L' : Ledger) :
    L.record_transaction d desc entries = .ok L' ↔
      (Ledger.routeAll L.accounts d desc entries).is_balanced = true ∧
      L' = { L with
              accounts := (Ledger.routeAll L.accounts d desc entries).post L.accounts,
              transactions :=
                L.transactions ++ [Ledger.routeAll L.accounts d desc entries] } := by
  unfold Ledger.record_transaction
  dsimp only
  by_cases h : (Ledger.routeAll L.accounts d desc entries).is_balanced = true
  · rw [if_pos h]
    constructor
    · intro he
      injection he with he
      exact ⟨h, he.symm⟩
    · rintro ⟨-, he2⟩; rw [he2]
  · rw [if_neg h]
    constructor
    · intro he; simp at he
    · rintro ⟨h1, -⟩; exact absurd h1 h

theorem is_balanced_iff (t : Transaction) :
    t.is_balanced = true ↔ sumAmounts t.debits = sumAmounts t.credits := by
  unfold Transaction.is_balanced
  exact beq_iff_eq

theorem record_ok_accSum (L : Ledger) (d : Date) (desc : String) (entries : List TEntry)
    (L' : Ledger) (hval : ∀ e ∈ entries, e.account < L.accounts.length)
    (h : L.record_transaction d desc entries = .ok L') :
    accSum L'.accounts = accSum L.accounts := by
  obtain ⟨hbal, hL'⟩ := (record_ok_iff L d desc entries L').mp h
  obtain ⟨hd, hc⟩ := routeAll_valid L.accounts L.accounts.length d desc entries hval
  rw [hL']
  show accSum ((Ledger.routeAll L.accounts d desc entries).post L.accounts) = _
  rw [accSum_post _ _ hd hc, (is_balanced_iff _).mp hbal]
  ring

theorem importJEntries_core (es : List JEntry) :
    ∀ (L : Ledger) (acc : List TEntry),
      (importJEntries (L, acc) es).1.name = L.name ∧
      (importJEntries (L, acc) es).1.transactions = L.transactions ∧
      L.accounts <+: (importJEntries (L, acc) es).1.accounts ∧
      accSum (importJEntries (L, acc) es).1.accounts = accSum L.accounts ∧
      ((∀ e ∈ acc, e.account < L.accounts.length) →
        ∀ e ∈ (importJEntries (L, acc) es).2,
          e.account < (importJEntries (L, acc) es).1.accounts.length) := by
  induction es with
  | nil =>
    intro L acc
    exact ⟨rfl, rfl, List.prefix_refl _, rfl, fun h => h⟩
  | cons je es ih =>
    intro L acc
    have hstep : importJEntries (L, acc) (je :: es) =
        importJEntries ((L.get_or_create_account je.account je.account_type).1,
          acc ++ [⟨(L.get_or_create_account je.account je.account_type).2, je.amount⟩]) es := by
      simp [importJEntries]
    obtain ⟨g1, g2, g3, g4, g5, g6, -⟩ := get_or_create_spec L je.account je.account_type
    obtain ⟨i1, i2, i3, i4, i5⟩ := ih (L.get_or_create_account je.account je.account_type).1
      (acc ++ [⟨(L.get_or_create_account je.account je.account_type).2, je.amount⟩])
    rw [hstep]
    refine ⟨by rw [i1, g1], by rw [i2, g2], g3.trans i3, by rw [i4, g6], ?_⟩
    intro hacc
    apply i5
    intro e he
    rcases List.mem_append.mp he with he | he
    · exact lt_of_lt_of_le (hacc e he) g3.length_le
    · simp only [List.mem_singleton] at he
      subst he
      simpa using g4

theorem importRowJSON_accSum (L : Ledger) (row : JTxn) :
    accSum (L.importRowJSON row).1.accounts = accSum L.accounts := by
  unfold Ledger.importRowJSON
  obtain ⟨-, -, d3, d4, d5⟩ := importJEntries_core row.debits L []
  obtain ⟨-, -, c3, c4, c5⟩ :=
    importJEntries_core row.credits (importJEntries (L, []) row.debits).1 []
  have hdval : ∀ e ∈ (importJEntries (L, []) row.debits).2,
      e.account <
        (importJEntries ((importJEntries (L, []) row.debits).1, []) row.credits).1.accounts.length := by
    intro e he
    exact lt_of_lt_of_le (d5 (by simp) e he) c3.length_le
  have hcval := c5 (by simp)
  dsimp only
  split
  · next hbal =>
    have hsum := (is_balanced_iff _).mp hbal
    dsimp only
    rw [accSum_post _ _ hdval hcval]
    simp only at hsum
    rw [hsum, c4, d4]
    ring
  · dsimp only
    rw [c4, d4]

theorem importJSON_go_accSum (rows : List JTxn) :
    ∀ (L : Ledger) (c : Nat),
      accSum ((rows.foldl
        (fun st row =>
          let p := Ledger.importRowJSON st.1 row
          (p.1, st.2 + p.2)) (L, c)).1.accounts) = accSum L.accounts := by
  induction rows with
  | nil => intro L c; rfl
  | cons r rs ih =>
    intro L c
    rw [List.foldl_cons]
    dsimp only
    rw [ih]
    exact importRowJSON_accSum L r

theorem importJSON_accSum (L : Ledger) (rows : List JTxn) :
    accSum (L.import_transactions_from_json rows).1.accounts = accSum L.accounts := by
  unfold Ledger.import_transactions_from_json
  exact importJSON_go_accSum rows L 0

theorem csvFold_core (q : ℚ) (nms : List String) :
    ∀ (L : Ledger) (acc : List TEntry),
      ((nms.foldl
        (fun (st : Ledger × List TEntry) nm =>
          let p := st.1.get_or_create_account nm (Ledger.infer_account_type nm)
          (p.1, st.2 ++ [⟨p.2, q⟩])) (L, acc)).1.name = L.name) ∧
      ((nms.foldl
        (fun (st : Ledger × List TEntry) nm =>
          let p := st.1.get_or_create_account nm (Ledger.infer_account_type nm)
          (p.1, st.2 ++ [⟨p.2, q⟩])) (L, acc)).1.transactions = L.transactions) ∧
      (L.accounts <+: (nms.foldl
        (fun (st : Ledger × List TEntry) nm =>
          let p := st.1.get_or_create_account nm (Ledger.infer_account_type nm)
          (p.1, st.2 ++ [⟨p.2, q⟩])) (L, acc)).1.accounts) ∧
      (accSum (nms.foldl
        (fun (st : Ledger × List TEntry) nm =>
          let p := st.1.get_or_create_account nm (Ledger.infer_account_type nm)
          (p.1, st.2 ++ [⟨p.2, q⟩])) (L, acc)).1.accounts = accSum L.accounts) ∧
      ((∀ e ∈ acc, e.account < L.accounts.length) →
        ∀ e ∈ (nms.foldl
          (fun (st : Ledger × List TEntry) nm =>
            let p := st.1.get_or_create_account nm (Ledger.infer_account_type nm)
            (p.1, st.2 ++ [⟨p.2, q⟩])) (L, acc)).2,
          e.account < (nms.foldl
            (fun (st : Ledger × List TEntry) nm =>
              let p := st.1.get_or_create_account nm (Ledger.infer_account_type nm)
              (p.1, st.2 ++ [⟨p.2, q⟩])) (L, acc)).1.accounts.length) := by
  induction nms with
  | nil =>
    intro L acc
    exact ⟨rfl, rfl, List.prefix_refl _, rfl, fun h => h⟩
  | cons nm nms ih =>
    intro L acc
    rw [List.foldl_cons]
    dsimp only
    obtain ⟨g1, g2, g3, g4, -, g6, -⟩ :=
      get_or_create_spec L nm (Ledger.infer_account_type nm)
    obtain ⟨i1, i2, i3, i4, i5⟩ := ih (L.get_or_create_account nm (Ledger.infer_account_type nm)).1
      (acc ++ [⟨(L.get_or_create_account nm (Ledger.infer_account_type nm)).2, q⟩])
    refine ⟨by rw [i1, g1], by rw [i2, g2], g3.trans i3, by rw [i4, g6], ?_⟩
    intro hacc
    apply i5
    intro e he
    rcases List.mem_append.mp he with he | he
    · exact lt_of_lt_of_le (hacc e he) g3.length_le
    · simp only [List.mem_singleton] at he
      subst he
      simpa using g4

theorem csvResolve_core (L : Ledger) (dns : List String) (q : ℚ)
    (cn1 : String) (ca1 : ℚ) (cn2 : String) (ca2 : ℚ) :
    (csvResolve L dns q cn1 ca1 cn2 ca2).1.name = L.name ∧
    (csvResolve L dns q cn1 ca1 cn2 ca2).1.transactions = L.transactions ∧
    L.accounts <+: (csvResolve L dns q cn1 ca1 cn2 ca2).1.accounts ∧
    accSum (csvResolve L dns q cn1 ca1 cn2 ca2).1.accounts = accSum L.accounts ∧
    (∀ e ∈ (csvResolve L dns q cn1 ca1 cn2 ca2).2.1,
      e.account < (csvResolve L dns q cn1 ca1 cn2 ca2).1.accounts.length) ∧
    (∀ e ∈ (csvResolve L dns q cn1 ca1 cn2 ca2).2.2,
      e.account < (csvResolve L dns q cn1 ca1 cn2 ca2).1.accounts.length) := by
  obtain ⟨f1, f2, f3, f4, f5⟩ := csvFold_core q dns L []
  have f5' := f5 (by simp)
  unfold csvResolve
  dsimp only
  by_cases h1 : cn1 ≠ ""
  · simp only [if_pos h1]
    by_cases h2 : cn2 ≠ "" ∧ 0 < ca2
    · simp only [if_pos h2]
      obtain ⟨a1, a2, a3, a4, -, a6, -⟩ := get_or_create_spec
        (dns.foldl
          (fun (st : Ledger × List TEntry) nm =>
            let p := st.1.get_or_create_account nm (Ledger.infer_account_type nm)
            (p.1, st.2 ++ [⟨p.2, q⟩])) (L, [])).1 cn1 (Ledger.infer_account_type cn1)
      obtain ⟨b1, b2, b3, b4, -, b6, -⟩ := get_or_create_spec
        ((dns.foldl
          (fun (st : Ledger × List TEntry) nm =>
            let p := st.1.get_or_create_account nm (Ledger.infer_account_type nm)
            (p.1, st.2 ++ [⟨p.2, q⟩])) (L, [])).1.get_or_create_account cn1
              (Ledger.infer_account_type cn1)).1 cn2 (Ledger.infer_account_type cn2)
      refine ⟨by rw [b1, a1, f1], by rw [b2, a2, f2], (f3.trans a3).trans b3,
        by rw [b6, a6, f4], ?_, ?_⟩
      · intro e he
        exact lt_of_lt_of_le (f5' e he) ((a3.trans b3).length_le)
      · intro e he
        rcases List.mem_append.mp he with he | he <;>
          simp only [List.mem_singleton] at he <;> subst he
        · exact lt_of_lt_of_le a4 b3.length_le
        · exact b4
    · simp only [if_neg h2]
      obtain ⟨a1, a2, a3, a4, -, a6, -⟩ := get_or_create_spec
        (dns.foldl
          (fun (st : Ledger × List TEntry) nm =>
            let p := st.1.get_or_create_account nm (Ledger.infer_account_type nm)
            (p.1, st.2 ++ [⟨p.2, q⟩])) (L, [])).1 cn1 (Ledger.infer_account_type cn1)
      refine ⟨by rw [a1, f1], by rw [a2, f2], f3.trans a3, by rw [a6, f4], ?_, ?_⟩
      · intro e he
        exact lt_of_lt_of_le (f5' e he) a3.length_le
      · intro e he
        simp only [List.append_nil, List.mem_singleton] at he
        subst he
        exact a4
  · simp only [if_neg h1]
    by_cases h2 : cn2 ≠ "" ∧ 0 < ca2
    · simp only [if_pos h2]
      obtain ⟨b1, b2, b3, b4, -, b6, -⟩ := get_or_create_spec
        (dns.foldl
          (fun (st : Ledger × List TEntry) nm =>
            let p := st.1.get_or_create_account nm (Ledger.infer_account_type nm)
            (p.1, st.2 ++ [⟨p.2, q⟩])) (L, [])).1 cn2 (Ledger.infer_account_type cn2)
      refine ⟨by rw [b1, f1], by rw [b2, f2], f3.trans b3, by rw [b6, f4], ?_, ?_⟩
      · intro e he
        exact lt_of_lt_of_le (f5' e he) b3.length_le
      · intro e he
        simp only [List.nil_append, List.mem_singleton] at he
        subst he
        exact b4
    · simp only [if_neg h2]
      refine ⟨f1, f2, f3, f4, f5', ?_⟩
      intro e he
      simp at he

theorem importRowCSV_accSum (L : Ledger) (r : CsvRow) :
    accSum (L.importRowCSV r).1.accounts = accSum L.accounts := by
  unfold Ledger.importRowCSV
  cases r.date with
  | none => rfl
  | some rd =>
    dsimp only
    cases parseDate rd with
    | error e => rfl
    | ok d =>
      dsimp only
      cases r.description with
      | none => rfl
      | some desc =>
        dsimp only
        cases parseDec (r.debit_amount.getD (RawDec.num 0)) with
        | error e => rfl
        | ok debit_amount =>
          dsimp only
          cases parseDec (r.credit_amount.getD (RawDec.num 0)) with
          | error e => rfl
          | ok credit_amount =>
            dsimp only
            cases (if truthyDec r.credit_amount_2 then
                parseDec (r.credit_amount_2.getD (RawDec.num 0))
              else Except.ok 0) with
            | error e => rfl
            | ok ca2 =>
              obtain ⟨-, -, -, r4, r5, r6⟩ := csvResolve_core L
                (splitNames (r.debit_account.getD ""))
                (debit_amount / ((splitNames (r.debit_account.getD "")).length : ℚ))
                (pyStrip (r.credit_account.getD "")) credit_amount
                (pyStrip (r.credit_account_2.getD "")) ca2
              dsimp only
              split
              · next hbal =>
                dsimp only
                rw [accSum_post _ _ r5 r6]
                have hsum := (is_balanced_iff _).mp hbal
                simp only at hsum
                rw [hsum, r4]
                ring
              · exact r4

theorem importCSVGo_accSum (rows : List CsvRow) :
    ∀ (L : Ledger) (c : Nat),
      accSum ((Ledger.importCSVGo L c rows).1.accounts) = accSum L.accounts := by
  induction rows with
  | nil => intro L c; rfl
  | cons r rs ih =>
    intro L c
    unfold Ledger.importCSVGo
    rcases hr : Ledger.importRowCSV L r with ⟨L', e?⟩
    have hacc : accSum L'.accounts = accSum L.accounts := by
      have h := importRowCSV_accSum L r
      rw [hr] at h
      exact h
    cases e? with
    | none =>
      dsimp only
      rw [ih L' (c + 1), hacc]
    | some e =>
      dsimp only
      split
      · rw [ih L' c, hacc]
      · exact hacc

theorem importCSV_accSum (L : Ledger) (rows : List CsvRow) :
    accSum (L.import_transactions_from_csv rows).1.accounts = accSum L.accounts := by
  unfold Ledger.import_transactions_from_csv
  exact importCSVGo_accSum rows L 0

theorem reach_accSum_zero {L : Ledger} (h : Reach L) : accSum L.accounts = 0 := by
  induction h with
  | init nm => rfl
  | create nm ty hR hfresh ih =>
    show accSum (_ ++ [_]) = 0
    rw [accSum_append, ih, accSum_cons]
    simp [signedBalance_zero, accSum]
  | getOrCreate nm ty hR ih =>
    obtain ⟨-, -, -, -, -, g6, -⟩ := get_or_create_spec _ nm ty
    rw [g6, ih]
  | record d desc entries hR hval hok ih =>
    rw [record_ok_accSum _ _ _ _ _ hval hok, ih]
  | importJSON rows hR ih =>
    rw [importJSON_accSum, ih]
  | importCSV rows hR ih =>
    rw [importCSV_accSum, ih]

theorem c1_signed_sum_invariant {L : Ledger} (h : Reach L) : L.signedSum = 0 :=
  reach_accSum_zero h

theorem c1_signed_sum_invariant_witness :
    (⟨"B", [⟨"Cash", .ASSET, 1000⟩, ⟨"Capital", .EQUITY, 1000⟩],
      [⟨⟨1397, 1, 1⟩, "seed", [⟨0, 1000⟩], [⟨1, 1000⟩]⟩]⟩ : Ledger).signedSum = 0 :=
  c1_signed_sum_invariant
    (Reach.record ⟨1397, 1, 1⟩ "seed" [⟨0, 1000⟩, ⟨1, 1000⟩]
      (Reach.create "Capital" .EQUITY
        (Reach.create "Cash" .ASSET (Reach.init "B") (by decide))
        (by decide))
      (by decide)
      (by simp [Ledger.record_transaction, Ledger.routeAll, Ledger.routeEntry,
        Transaction.is_balanced, sumAmounts, Transaction.post, Transaction.add_debit,
        Transaction.add_credit, Ledger.create_account, Ledger.new, updateAt,
        Account.debit, Account.credit]))

theorem c2_unbalanced_record_fails (L : Ledger) (d : Date) (desc : String)
    (entries : List TEntry)
    (h : sumAmounts (Ledger.routeAll L.accounts d desc entries).debits ≠
      sumAmounts (Ledger.routeAll L.accounts d desc entries).credits) :
    L.record_transaction d desc entries = .error .valueError ∧
    ∀ L' : Ledger, L.record_transaction d desc entries ≠ .ok L' := by
  have hbal : ¬(Ledger.routeAll L.accounts d desc entries).is_balanced = true := by
    rw [is_balanced_iff]; exact h
  unfold Ledger.record_transaction
  dsimp only
  rw [if_neg hbal]
  exact ⟨rfl, fun L' hc => by simp at hc⟩

theorem c2_unbalanced_record_fails_witness :
    (sumAmounts (Ledger.routeAll
        [⟨"Cash", .ASSET, 0⟩, ⟨"Capital", .EQUITY, 0⟩] ⟨1397, 1, 1⟩ "bad"
        [⟨0, 1000⟩, ⟨1, 900⟩]).debits ≠
      sumAmounts (Ledger.routeAll
        [⟨"Cash", .ASSET, 0⟩, ⟨"Capital", .EQUITY, 0⟩] ⟨1397, 1, 1⟩ "bad"
        [⟨0, 1000⟩, ⟨1, 900⟩]).credits) ∧
    (⟨"B", [⟨"Cash", .ASSET, 0⟩, ⟨"Capital", .EQUITY, 0⟩], []⟩ : Ledger).record_transaction
      ⟨1397, 1, 1⟩ "bad" [⟨0, 1000⟩, ⟨1, 900⟩] = .error .valueError :=
  have h : sumAmounts (Ledger.routeAll
      [⟨"Cash", .ASSET, 0⟩, ⟨"Capital", .EQUITY, 0⟩] ⟨1397, 1, 1⟩ "bad"
      [⟨0, 1000⟩, ⟨1, 900⟩]).debits ≠
      sumAmounts (Ledger.routeAll
      [⟨"Cash", .ASSET, 0⟩, ⟨"Capital", .EQUITY, 0⟩] ⟨1397, 1, 1⟩ "bad"
      [⟨0, 1000⟩, ⟨1, 900⟩]).credits := by
    simp [Ledger.routeAll, Ledger.routeEntry, Transaction.add_debit, Transaction.add_credit,
      sumAmounts]
  ⟨h, (c2_unbalanced_record_fails
    ⟨"B", [⟨"Cash", .ASSET, 0⟩, ⟨"Capital", .EQUITY, 0⟩], []⟩
    ⟨1397, 1, 1⟩ "bad" [⟨0, 1000⟩, ⟨1, 900⟩] h).1⟩

theorem c3_counterexample :
    (Ledger.new "B").record_transaction ⟨1397, 1, 1⟩ "empty" [] =
      .ok ⟨"B", [], [⟨⟨1397, 1, 1⟩, "empty", [], []⟩]⟩ := rfl

theorem c3_amended_empty_posts (L : Ledger) (d : Date) (desc : String) :
    L.record_transaction d desc [] =
      .ok { L with transactions := L.transactions ++ [⟨d, desc, [], []⟩] } := rfl

theorem routeFold_spec (accounts : List Account) :
    ∀ (entries : List TEntry) (t : Transaction),
      (entries.foldl (Ledger.routeEntry accounts) t).debits =
        t.debits ++ entries.filterMap (routeDebitSpec accounts) ∧
      (entries.foldl (Ledger.routeEntry accounts) t).credits =
        t.credits ++ entries.filterMap (routeCreditSpec accounts) := by
  intro entries
  induction entries with
  | nil => intro t; simp
  | cons e es ih =>
    intro t
    rw [List.foldl_cons, List.filterMap_cons, List.filterMap_cons]
    by_cases h1 : (accounts.getD e.account default).type = AccountType.ASSET ∨
        (accounts.getD e.account default).type = AccountType.EXPENSE
    · by_cases h2 : 0 ≤ e.amount
      · have hroute : Ledger.routeEntry accounts t e = t.add_debit e := by
          unfold Ledger.routeEntry; rw [if_pos h1, if_pos h2]
        have hd : routeDebitSpec accounts e = some e := by
          unfold routeDebitSpec typeAt; rw [if_pos h1, if_pos h2]
        have hc : routeCreditSpec accounts e = none := by
          unfold routeCreditSpec typeAt; rw [if_pos h1, if_pos h2]
        rw [hroute, hd, hc]
        obtain ⟨ihd, ihc⟩ := ih (t.add_debit e)
        rw [ihd, ihc]
        simp [Transaction.add_debit, Transaction.add_credit]
      · have hroute : Ledger.routeEntry accounts t e =
            t.add_credit ⟨e.account, |e.amount|⟩ := by
          unfold Ledger.routeEntry; rw [if_pos h1, if_neg h2]
        have hd : routeDebitSpec accounts e = none := by
          unfold routeDebitSpec typeAt; rw [if_pos h1, if_neg h2]
        have hc : routeCreditSpec accounts e = some ⟨e.account, |e.amount|⟩ := by
          unfold routeCreditSpec typeAt; rw [if_pos h1, if_neg h2]
        rw [hroute, hd, hc]
        obtain ⟨ihd, ihc⟩ := ih (t.add_credit ⟨e.account, |e.amount|⟩)
        rw [ihd, ihc]
        simp [Transaction.add_debit, Transaction.add_credit]
    · by_cases h2 : 0 ≤ e.amount
      · have hroute : Ledger.routeEntry accounts t e = t.add_credit e := by
          unfold Ledger.routeEntry; rw [if_neg h1, if_pos h2]
        have hd : routeDebitSpec accounts e = none := by
          unfold routeDebitSpec typeAt; rw [if_neg h1, if_pos h2]
        have hc : routeCreditSpec accounts e = some e := by
          unfold routeCreditSpec typeAt; rw [if_neg h1, if_pos h2]
        rw [hroute, hd, hc]
        obtain ⟨ihd, ihc⟩ := ih (t.add_credit e)
        rw [ihd, ihc]
        simp [Transaction.add_debit, Transaction.add_credit]
      · have hroute : Ledger.routeEntry accounts t e =
            t.add_debit ⟨e.account, |e.amount|⟩ := by
          unfold Ledger.routeEntry; rw [if_neg h1, if_neg h2]
        have hd : routeDebitSpec accounts e = some ⟨e.account, |e.amount|⟩ := by
          unfold routeDebitSpec typeAt; rw [if_neg h1, if_neg h2]
        have hc : routeCreditSpec accounts e = none := by
          unfold routeCreditSpec typeAt; rw [if_neg h1, if_neg h2]
        rw [hroute, hd, hc]
        obtain ⟨ihd, ihc⟩ := ih (t.add_debit ⟨e.account, |e.amount|⟩)
        rw [ihd, ihc]
        simp [Transaction.add_debit, Transaction.add_credit]

theorem c5_routing_rule (accounts : List Account) (d : Date) (desc : String)
    (entries : List TEntry) :
    (Ledger.routeAll accounts d desc entries).debits =
      entries.filterMap (routeDebitSpec accounts) ∧
    (Ledger.routeAll accounts d desc entries).credits =
      entries.filterMap (routeCreditSpec accounts) := by
  unfold Ledger.routeAll
  have h := routeFold_spec accounts entries ⟨d, desc, [], []⟩
  simpa using h

theorem c10_existing_account_type_ignored (L : Ledger) (nm : String) (ty' : AccountType)
    (i : Nat) (h : L.accounts.findIdx? (fun a => a.name == nm) = some i) :
    L.get_or_create_account nm ty' = (L, i) ∧
    ∀ q : ℚ,
      ((updateAt L.accounts i (fun a => a.debit q)).getD i default).balance =
        (L.accounts.getD i default).balance + dSign (typeAt L.accounts i) * q := by
  constructor
  · unfold Ledger.get_or_create_account
    rw [h]
  · intro q
    have hlt : i < L.accounts.length := by
      have := findIdx?_some_facts (fun a => a.name == nm) default L.accounts 0 i h
      simpa using this.2.1
    rw [getD_updateAt_self _ _ _ _ hlt, Account.debit_balance]
    rfl

theorem c10_existing_account_type_ignored_witness :
    (([⟨"Cash", .ASSET, 0⟩] : List Account).findIdx? (fun a => a.name == "Cash") = some 0) ∧
    (⟨"B", [⟨"Cash", .ASSET, 0⟩], []⟩ : Ledger).get_or_create_account "Cash" .LIABILITY =
      (⟨"B", [⟨"Cash", .ASSET, 0⟩], []⟩, 0) ∧
    ((updateAt [⟨"Cash", .ASSET, 0⟩] 0 (fun a => a.debit 7)).getD 0 default).balance =
      (([⟨"Cash", .ASSET, 0⟩] : List Account).getD 0 default).balance +
        dSign (typeAt [⟨"Cash", .ASSET, 0⟩] 0) * 7 :=
  have h : ([⟨"Cash", .ASSET, 0⟩] : List Account).findIdx?
      (fun a => a.name == "Cash") = some 0 := by decide
  ⟨h,
    (c10_existing_account_type_ignored ⟨"B", [⟨"Cash", .ASSET, 0⟩], []⟩ "Cash" .LIABILITY 0 h).1,
    (c10_existing_account_type_ignored ⟨"B", [⟨"Cash", .ASSET, 0⟩], []⟩ "Cash" .LIABILITY 0 h).2 7⟩

theorem containsAux_iff (kw : List Char) :
    ∀ hay : List Char, containsAux kw hay = true ↔ kw <:+: hay := by
  intro hay
  induction hay with
  | nil =>
    simp [containsAux, List.infix_nil, List.isEmpty_iff]
  | cons c t ih =>
    simp [containsAux, List.isPrefixOf_iff_prefix, List.infix_cons_iff, ih, Bool.or_eq_true,
      or_comm]

theorem strContains_of_sub (hay : String) (kw kw' : String)
    (hsub : kw'.data <:+: kw.data) (h : strContains hay kw = true) :
    strContains hay kw' = true := by
  unfold strContains at *
  rw [containsAux_iff] at *
  exact hsub.trans h

theorem liability_any_eq (l : String) :
    anyKeyword l liability_keywords =
      anyKeyword l ["payable", "loan", "debt", "liability"] := by
  cases he : strContains l "deposits payable" with
  | false =>
    simp [anyKeyword, liability_keywords, List.any, he]
  | true =>
    have ha : strContains l "payable" = true :=
      strContains_of_sub l "deposits payable" "payable" ⟨"deposits ".data, [], by decide⟩ he
    simp [anyKeyword, liability_keywords, List.any, ha]

theorem infer_eq_spec : ∀ nm : String, Ledger.infer_account_type nm = inferTypeSpec nm := by
  intro nm
  have hlb := liability_any_eq (lowerStr nm)
  unfold Ledger.infer_account_type inferTypeSpec
  simp only [specCategories, List.find?_cons]
  cases h1 : anyKeyword (lowerStr nm) asset_keywords with
  | true =>
    have h1' : anyKeyword (lowerStr nm)
        ["cash", "receivable", "inventory", "land", "building", "equipment", "asset"] = true := by
      simpa [asset_keywords] using h1
    simp [h1, h1']
  | false =>
    have h1' : anyKeyword (lowerStr nm)
        ["cash", "receivable", "inventory", "land", "building", "equipment", "asset"] = false := by
      simpa [asset_keywords] using h1
    cases h2 : anyKeyword (lowerStr nm) liability_keywords with
    | true =>
      have h2' : anyKeyword (lowerStr nm) ["payable", "loan", "debt", "liability"] = true :=
        hlb.symm.trans h2
      simp [h1, h1', h2, h2']
    | false =>
      have h2' : anyKeyword (lowerStr nm) ["payable", "loan", "debt", "liability"] = false :=
        hlb.symm.trans h2
      cases h3 : anyKeyword (lowerStr nm) equity_keywords with
      | true =>
        have h3' : anyKeyword (lowerStr nm)
            ["capital", "equity", "retained earnings", "owner"] = true := by
          simpa [equity_keywords] using h3
        simp [h1, h1', h2, h2', h3, h3']
      | false =>
        have h3' : anyKeyword (lowerStr nm)
            ["capital", "equity", "retained earnings", "owner"] = false := by
          simpa [equity_keywords] using h3
        cases h4 : anyKeyword (lowerStr nm) revenue_keywords with
        | true =>
          have h4' : anyKeyword (lowerStr nm)
              ["revenue", "income", "sales", "interest income", "fee"] = true := by
            simpa [revenue_keywords] using h4
          simp [h1, h1', h2, h2', h3, h3', h4, h4']
        | false =>
          have h4' : anyKeyword (lowerStr nm)
              ["revenue", "income", "sales", "interest income", "fee"] = false := by
            simpa [revenue_keywords] using h4
          cases h5 : anyKeyword (lowerStr nm) expense_keywords with
          | true =>
            have h5' : anyKeyword (lowerStr nm)
                ["expense", "wages", "rent", "supplies", "maintenance", "courier", "cost"]
                = true := by
              simpa [expense_keywords] using h5
            simp [h1, h1', h2, h2', h3, h3', h4, h4', h5, h5']
          | false =>
            have h5' : anyKeyword (lowerStr nm)
                ["expense", "wages", "rent", "supplies", "maintenance", "courier", "cost"]
                = false := by
              simpa [expense_keywords] using h5
            simp [h1, h1', h2, h2', h3, h3', h4, h4', h5, h5']

theorem c7_account_type_inference :
    (∀ nm : String, Ledger.infer_account_type nm = inferTypeSpec nm) ∧
    Ledger.infer_account_type "Cash" = .ASSET ∧
    Ledger.infer_account_type "Accounts Payable" = .LIABILITY ∧
    Ledger.infer_account_type "Owner's Capital" = .EQUITY ∧
    Ledger.infer_account_type "Interest Income" = .REVENUE ∧
    Ledger.infer_account_type "Wages" = .EXPENSE ∧
    Ledger.infer_account_type "Miscellaneous" = .ASSET :=
  ⟨infer_eq_spec, by decide, by decide, by decide, by decide, by decide, by decide⟩

theorem c6_nonnumeric_amount_aborts_import :
    (Ledger.new "B").import_transactions_from_csv
      [⟨some (.valid ⟨1397, 1, 2⟩), some "bad", some "Cash", some .nonNumeric,
         some "Revenue", some (.num 100), some "", some .emptyStr⟩,
       ⟨some (.valid ⟨1397, 1, 3⟩), some "ok", some "Cash", some (.num 100),
         some "Revenue", some (.num 100), some "", some .emptyStr⟩] =
      (Ledger.new "B", .error .invalidOperation) := rfl

theorem c8_csv_roundtrip_equal_split (x y : ℚ) (hxy : x ≠ y) :
    (Ledger.new "F").import_transactions_from_csv
        ((⟨"B", [⟨"Cash", .ASSET, 0⟩, ⟨"Land", .ASSET, 0⟩, ⟨"Capital", .EQUITY, 0⟩],
            [⟨⟨1397, 1, 1⟩, "t", [⟨0, x⟩, ⟨1, y⟩],
              [⟨2, x + y⟩]⟩]⟩ : Ledger).export_transactions_to_csv) =
      ((⟨"F", [⟨"Cash", .ASSET, (x + y) / 2⟩, ⟨"Land", .ASSET, (x + y) / 2⟩,
          ⟨"Capital", .EQUITY, x + y⟩],
        [⟨⟨1397, 1, 1⟩, "t", [⟨0, (x + y) / 2⟩, ⟨1, (x + y) / 2⟩],
          [⟨2, x + y⟩]⟩]⟩ : Ledger), .ok 1) ∧
    (x + y) / 2 ≠ x := by
  constructor
  · have hjoin : joinCommaSpace ["Cash", "Land"] = "Cash, Land" := by decide
    have hexp : (⟨"B", [⟨"Cash", .ASSET, 0⟩, ⟨"Land", .ASSET, 0⟩, ⟨"Capital", .EQUITY, 0⟩],
        [⟨⟨1397, 1, 1⟩, "t", [⟨0, x⟩, ⟨1, y⟩], [⟨2, x + y⟩]⟩]⟩ : Ledger).export_transactions_to_csv =
        [⟨some (.valid ⟨1397, 1, 1⟩), some "t", some "Cash, Land", some (.num (x + y)),
          some "Capital", some (.num (x + y)), some "", some .emptyStr⟩] := by
      simp [Ledger.export_transactions_to_csv, Ledger.exportRowCSV, sumAmounts, nameAt, hjoin]
    rw [hexp]
    have hsplit : splitNames "Cash, Land" = ["Cash", "Land"] := by decide
    have hg1 : (Ledger.new "F").get_or_create_account "Cash"
        (Ledger.infer_account_type "Cash") = (⟨"F", [⟨"Cash", .ASSET, 0⟩], []⟩, 0) := by decide
    have hg2 : (⟨"F", [⟨"Cash", .ASSET, 0⟩], []⟩ : Ledger).get_or_create_account "Land"
        (Ledger.infer_account_type "Land") =
        (⟨"F", [⟨"Cash", .ASSET, 0⟩, ⟨"Land", .ASSET, 0⟩], []⟩, 1) := by decide
    have hg3 : (⟨"F", [⟨"Cash", .ASSET, 0⟩, ⟨"Land", .ASSET, 0⟩], []⟩ : Ledger).get_or_create_account
        "Capital" (Ledger.infer_account_type "Capital") =
        (⟨"F", [⟨"Cash", .ASSET, 0⟩, ⟨"Land", .ASSET, 0⟩, ⟨"Capital", .EQUITY, 0⟩], []⟩, 2) := by
      decide
    have hres : csvResolve (Ledger.new "F") ["Cash", "Land"] ((x + y) / 2) "Capital" (x + y) "" 0 =
        (⟨"F", [⟨"Cash", .ASSET, 0⟩, ⟨"Land", .ASSET, 0⟩, ⟨"Capital", .EQUITY, 0⟩], []⟩,
          [⟨0, (x + y) / 2⟩, ⟨1, (x + y) / 2⟩], [⟨2, x + y⟩]) := by
      unfold csvResolve
      rw [List.foldl_cons]
      dsimp only
      rw [hg1, List.foldl_cons]
      dsimp only
      rw [hg2, List.foldl_nil]
      dsimp only
      rw [if_pos (by decide : ("Capital" : String) ≠ "")]
      dsimp only
      rw [hg3]
      rw [if_neg (by simp : ¬(("" : String) ≠ "" ∧ (0 : ℚ) < 0))]
      simp
    have hbal : (⟨⟨1397, 1, 1⟩, "t", [⟨0, (x + y) / 2⟩, ⟨1, (x + y) / 2⟩],
        [⟨2, x + y⟩]⟩ : Transaction).is_balanced = true := by
      rw [is_balanced_iff]
      unfold sumAmounts
      simp only [List.map_cons, List.map_nil, List.sum_cons, List.sum_nil, add_zero]
      ring
    have hrow : Ledger.importRowCSV (Ledger.new "F")
        ⟨some (.valid ⟨1397, 1, 1⟩), some "t", some "Cash, Land", some (.num (x + y)),
          some "Capital", some (.num (x + y)), some "", some .emptyStr⟩ =
        (⟨"F", [⟨"Cash", .ASSET, (x + y) / 2⟩, ⟨"Land", .ASSET, (x + y) / 2⟩,
            ⟨"Capital", .EQUITY, x + y⟩],
          [⟨⟨1397, 1, 1⟩, "t", [⟨0, (x + y) / 2⟩, ⟨1, (x + y) / 2⟩],
            [⟨2, x + y⟩]⟩]⟩, none) := by
      unfold Ledger.importRowCSV
      dsimp only [parseDate, parseDec, truthyDec, Option.getD]
      rw [hsplit]
      rw [show pyStrip "Capital" = "Capital" from by decide,
        show pyStrip "" = "" from by decide]
      simp only [Bool.false_eq_true, if_false]
      have hlen : ((["Cash", "Land"].length : ℕ) : ℚ) = 2 := by simp
      rw [hlen]
      rw [hres]
      dsimp only
      rw [if_pos hbal]
      simp [Transaction.post, updateAt, Account.debit, Account.credit]
    unfold Ledger.import_transactions_from_csv Ledger.importCSVGo
    rw [hrow]
    rfl
  · intro h
    apply hxy
    have : x + y = 2 * x := by
      field_simp at h
      linarith
    linarith

theorem c8_csv_roundtrip_equal_split_witness :
    ((100 : ℚ) ≠ 50) ∧
    ((Ledger.new "F").import_transactions_from_csv
        ((⟨"B", [⟨"Cash", .ASSET, 0⟩, ⟨"Land", .ASSET, 0⟩, ⟨"Capital", .EQUITY, 0⟩],
            [⟨⟨1397, 1, 1⟩, "t", [⟨0, 100⟩, ⟨1, 50⟩],
              [⟨2, (100 : ℚ) + 50⟩]⟩]⟩ : Ledger).export_transactions_to_csv) =
      ((⟨"F", [⟨"Cash", .ASSET, ((100 : ℚ) + 50) / 2⟩, ⟨"Land", .ASSET, ((100 : ℚ) + 50) / 2⟩,
          ⟨"Capital", .EQUITY, (100 : ℚ) + 50⟩],
        [⟨⟨1397, 1, 1⟩, "t", [⟨0, ((100 : ℚ) + 50) / 2⟩, ⟨1, ((100 : ℚ) + 50) / 2⟩],
          [⟨2, (100 : ℚ) + 50⟩]⟩]⟩ : Ledger), .ok 1) ∧
      ((100 : ℚ) + 50) / 2 ≠ 100) :=
  ⟨by decide, c8_csv_roundtrip_equal_split 100 50 (by decide)⟩

theorem updateAt_oob (l : List Account) (i : Nat) (f : Account → Account)
    (h : l.length ≤ i) : updateAt l i f = l := by
  induction l generalizing i with
  | nil => rfl
  | cons a as ih =>
    cases i with
    | zero => simp at h
    | succ n => simp only [updateAt]; rw [ih n (by simpa using h)]

theorem typeAt_updateAt (l : List Account) (i j : Nat) (f : Account → Account)
    (hf : ∀ a, (f a).type = a.type) : typeAt (updateAt l i f) j = typeAt l j := by
  by_cases hj : j = i
  · subst hj
    by_cases hi : j < l.length
    · unfold typeAt
      rw [getD_updateAt_self _ _ _ _ hi, hf]
    · rw [updateAt_oob _ _ _ (by omega)]
  · unfold typeAt
    rw [getD_updateAt_ne _ _ _ _ _ hj]

theorem nameAt_updateAt (l : List Account) (i j : Nat) (f : Account → Account)
    (hf : ∀ a, (f a).name = a.name) : nameAt (updateAt l i f) j = nameAt l j := by
  by_cases hj : j = i
  · subst hj
    by_cases hi : j < l.length
    · unfold nameAt
      rw [getD_updateAt_self _ _ _ _ hi, hf]
    · rw [updateAt_oob _ _ _ (by omega)]
  · unfold nameAt
    rw [getD_updateAt_ne _ _ _ _ _ hj]

theorem namesOf_updateAt (l : List Account) (i : Nat) (f : Account → Account)
    (hf : ∀ a, (f a).name = a.name) : namesOf (updateAt l i f) = namesOf l :=
  updateAt_map _ f hf l i

theorem balance_updateAt_ne (l : List Account) (i j : Nat) (f : Account → Account)
    (hj : j ≠ i) :
    ((updateAt l i f).getD j default).balance = (l.getD j default).balance := by
  rw [getD_updateAt_ne _ _ _ _ _ hj]

theorem foldl_debits_typeAt (es : List TEntry) :
    ∀ (l : List Account) (j : Nat),
      typeAt (es.foldl (fun acc e => updateAt acc e.account (fun a => a.debit e.amount)) l) j
        = typeAt l j := by
  induction es with
  | nil => intro l j; rfl
  | cons e es ih =>
    intro l j
    rw [List.foldl_cons, ih, typeAt_updateAt]
    exact fun a => Account.debit_type a e.amount

theorem foldl_credits_typeAt (es : List TEntry) :
    ∀ (l : List Account) (j : Nat),
      typeAt (es.foldl (fun acc e => updateAt acc e.account (fun a => a.credit e.amount)) l) j
        = typeAt l j := by
  induction es with
  | nil => intro l j; rfl
  | cons e es ih =>
    intro l j
    rw [List.foldl_cons, ih, typeAt_updateAt]
    exact fun a => Account.credit_type a e.amount

theorem foldl_debits_namesOf (es : List TEntry) :
    ∀ (l : List Account),
      namesOf (es.foldl (fun acc e => updateAt acc e.account (fun a => a.debit e.amount)) l)
        = namesOf l := by
  induction es with
  | nil => intro l; rfl
  | cons e es ih =>
    intro l
    rw [List.foldl_cons, ih, namesOf_updateAt]
    exact fun a => Account.debit_name a e.amount

theorem foldl_credits_namesOf (es : List TEntry) :
    ∀ (l : List Account),
      namesOf (es.foldl (fun acc e => updateAt acc e.account (fun a => a.credit e.amount)) l)
        = namesOf l := by
  induction es with
  | nil => intro l; rfl
  | cons e es ih =>
    intro l
    rw [List.foldl_cons, ih, namesOf_updateAt]
    exact fun a => Account.credit_name a e.amount

theorem post_namesOf (t : Transaction) (l : List Account) :
    namesOf (t.post l) = namesOf l := by
  unfold Transaction.post
  rw [foldl_credits_namesOf, foldl_debits_namesOf]

theorem post_typeAt (t : Transaction) (l : List Account) (j : Nat) :
    typeAt (t.post l) j = typeAt l j := by
  unfold Transaction.post
  rw [foldl_credits_typeAt, foldl_debits_typeAt]

theorem foldl_debits_balance (es : List TEntry) :
    ∀ (l : List Account) (i : Nat), (∀ e ∈ es, e.account < l.length) → i < l.length →
      (((es.foldl (fun acc e => updateAt acc e.account (fun a => a.debit e.amount)) l).getD i
          default).balance)
        = (l.getD i default).balance +
          dSign (typeAt l i) * sumAmounts (es.filter (fun e => e.account == i)) := by
  induction es with
  | nil => intro l i _ _; simp [sumAmounts]
  | cons e es ih =>
    intro l i hv hi
    rw [List.foldl_cons]
    have hlen : (updateAt l e.account (fun a => a.debit e.amount)).length = l.length :=
      updateAt_length _ _ _
    have hv' : ∀ x ∈ es, x.account < (updateAt l e.account (fun a => a.debit e.amount)).length := by
      intro x hx; rw [hlen]; exact hv x (by simp [hx])
    rw [ih _ i hv' (by rw [hlen]; exact hi)]
    rw [typeAt_updateAt _ _ _ _ (fun a => Account.debit_type a e.amount)]
    by_cases he : e.account = i
    · subst he
      rw [getD_updateAt_self _ _ _ _ (hv e (by simp)), Account.debit_balance]
      rw [List.filter_cons_of_pos (by simp), sumAmounts_cons]
      have : typeAt l e.account = (l.getD e.account default).type := rfl
      rw [← this]
      ring
    · rw [balance_updateAt_ne _ _ _ _ (fun hh => he hh.symm)]
      rw [List.filter_cons_of_neg (by simp [he])]

theorem foldl_credits_balance (es : List TEntry) :
    ∀ (l : List Account) (i : Nat), (∀ e ∈ es, e.account < l.length) → i < l.length →
      (((es.foldl (fun acc e => updateAt acc e.account (fun a => a.credit e.amount)) l).getD i
          default).balance)
        = (l.getD i default).balance -
          dSign (typeAt l i) * sumAmounts (es.filter (fun e => e.account == i)) := by
  induction es with
  | nil => intro l i _ _; simp [sumAmounts]
  | cons e es ih =>
    intro l i hv hi
    rw [List.foldl_cons]
    have hlen : (updateAt l e.account (fun a => a.credit e.amount)).length = l.length :=
      updateAt_length _ _ _
    have hv' : ∀ x ∈ es,
        x.account < (updateAt l e.account (fun a => a.credit e.amount)).length := by
      intro x hx; rw [hlen]; exact hv x (by simp [hx])
    rw [ih _ i hv' (by rw [hlen]; exact hi)]
    rw [typeAt_updateAt _ _ _ _ (fun a => Account.credit_type a e.amount)]
    by_cases he : e.account = i
    · subst he
      rw [getD_updateAt_self _ _ _ _ (hv e (by simp)), Account.credit_balance]
      rw [List.filter_cons_of_pos (by simp), sumAmounts_cons]
      have : typeAt l e.account = (l.getD e.account default).type := rfl
      rw [← this]
      ring
    · rw [balance_updateAt_ne _ _ _ _ (fun hh => he hh.symm)]
      rw [List.filter_cons_of_neg (by simp [he])]

theorem post_balance (t : Transaction) (l : List Account) (i : Nat)
    (hv : entriesValidIn l.length t) (hi : i < l.length) :
    ((t.post l).getD i default).balance
      = (l.getD i default).balance + dSign (typeAt l i) * entryFlowAt t i := by
  unfold Transaction.post entryFlowAt
  have hdlen := foldl_debits_length t.debits l
  rw [foldl_credits_balance _ _ _ (by rw [hdlen]; exact hv.2) (by rw [hdlen]; exact hi)]
  rw [foldl_debits_balance _ _ _ hv.1 hi]
  rw [foldl_debits_typeAt]
  ring

theorem entriesValidIn_mono {n m : Nat} (h : n ≤ m) {t : Transaction}
    (hv : entriesValidIn n t) : entriesValidIn m t :=
  ⟨fun e he => lt_of_lt_of_le (hv.1 e he) h, fun e he => lt_of_lt_of_le (hv.2 e he) h⟩

theorem filter_acct_oob (es : List TEntry) (n i : Nat)
    (hv : ∀ e ∈ es, e.account < n) (hi : n ≤ i) :
    es.filter (fun e => e.account == i) = [] := by
  rw [List.filter_eq_nil_iff]
  intro e he
  have := hv e he
  simp only [beq_iff_eq]
  omega

theorem entryFlowAt_oob (t : Transaction) (n i : Nat)
    (hv : entriesValidIn n t) (hi : n ≤ i) : entryFlowAt t i = 0 := by
  unfold entryFlowAt
  rw [filter_acct_oob _ _ _ hv.1 hi, filter_acct_oob _ _ _ hv.2 hi]
  simp [sumAmounts]

theorem flowSum_oob (ts : List Transaction) (n i : Nat)
    (hv : ∀ t ∈ ts, entriesValidIn n t) (hi : n ≤ i) : flowSum ts i = 0 := by
  unfold flowSum
  apply List.sum_eq_zero
  intro x hx
  obtain ⟨t, ht, rfl⟩ := List.mem_map.mp hx
  exact entryFlowAt_oob t n i (hv t ht) hi

theorem flowSum_append (ts : List Transaction) (t : Transaction) (i : Nat) :
    flowSum (ts ++ [t]) i = flowSum ts i + entryFlowAt t i := by
  simp [flowSum]

theorem typeAt_append_left (l l' : List Account) (i : Nat) (h : i < l.length) :
    typeAt (l ++ l') i = typeAt l i := by
  unfold typeAt
  rw [List.getD_append _ _ _ _ h]

theorem Ledger.ext' (A B : Ledger) (h1 : A.name = B.name) (h2 : A.accounts = B.accounts)
    (h3 : A.transactions = B.transactions) : A = B := by
  cases A; cases B; simp_all

theorem WF_new (nm : String) : WF (Ledger.new nm) := by
  refine ⟨by simp [namesOf, Ledger.new], ?_, ?_, ?_⟩ <;> simp [Ledger.new]

theorem WF_append (L : Ledger) (nm : String) (ty : AccountType) (hWF : WF L)
    (hfresh : ∀ a ∈ L.accounts, a.name ≠ nm) :
    WF { L with accounts := L.accounts ++ [⟨nm, ty, 0⟩] } := by
  refine ⟨?_, ?_, ?_, ?_⟩
  · unfold namesOf
    rw [List.map_append, List.nodup_append]
    refine ⟨hWF.nodup, by simp, ?_⟩
    intro s hs
    simp only [List.map_cons, List.map_nil, List.mem_singleton]
    intro hx
    subst hx
    obtain ⟨a, ha, rfl⟩ := List.mem_map.mp hs
    exact absurd rfl (hfresh a ha)
  · intro t ht
    exact entriesValidIn_mono (by simp) (hWF.valid t ht)
  · exact hWF.bal
  · intro i hi
    simp only [List.length_append, List.length_cons, List.length_nil] at hi
    by_cases hlt : i < L.accounts.length
    · show ((L.accounts ++ [(⟨nm, ty, 0⟩ : Account)]).getD i default).balance = _
      rw [List.getD_append _ _ _ _ hlt]
      show _ = dSign (typeAt (L.accounts ++ [(⟨nm, ty, 0⟩ : Account)]) i) *
        flowSum L.transactions i
      rw [typeAt_append_left _ _ _ hlt]
      exact hWF.char i hlt
    · have hieq : i = L.accounts.length := by omega
      subst hieq
      show ((L.accounts ++ [(⟨nm, ty, 0⟩ : Account)]).getD L.accounts.length
        default).balance = _
      rw [List.getD_append_right _ _ _ _ (le_refl _)]
      simp only [Nat.sub_self, List.getD_cons_zero]
      rw [flowSum_oob L.transactions L.accounts.length _ hWF.valid (le_refl _)]
      simp

theorem WF_post (L : Ledger) (t : Transaction) (hWF : WF L)
    (hv : entriesValidIn L.accounts.length t)
    (hb : sumAmounts t.debits = sumAmounts t.credits) :
    WF { L with accounts := t.post L.accounts,
                transactions := L.transactions ++ [t] } := by
  refine ⟨?_, ?_, ?_, ?_⟩
  · show (namesOf (t.post L.accounts)).Nodup
    rw [post_namesOf]
    exact hWF.nodup
  · intro t' ht'
    show entriesValidIn (t.post L.accounts).length t'
    rw [Transaction.post_length]
    rcases List.mem_append.mp ht' with h | h
    · exact hWF.valid t' h
    · simp only [List.mem_singleton] at h
      subst h
      exact hv
  · intro t' ht'
    rcases List.mem_append.mp ht' with h | h
    · exact hWF.bal t' h
    · simp only [List.mem_singleton] at h
      subst h
      exact hb
  · intro i hi
    have hlen : (t.post L.accounts).length = L.accounts.length := Transaction.post_length t _
    rw [hlen] at hi
    show ((t.post L.accounts).getD i default).balance
      = dSign (typeAt (t.post L.accounts) i) * flowSum (L.transactions ++ [t]) i
    rw [post_balance t L.accounts i hv hi, post_typeAt, flowSum_append, hWF.char i hi]
    ring

theorem WF_get_or_create (L : Ledger) (nm : String) (ty : AccountType) (hWF : WF L) :
    WF (L.get_or_create_account nm ty).1 := by
  obtain ⟨g1, g2, -, -, -, -, hcases⟩ := get_or_create_spec L nm ty
  cases hcases with
  | inl heq =>
    have : (L.get_or_create_account nm ty).1 = L := Ledger.ext' _ _ g1 heq g2
    rw [this]
    exact hWF
  | inr hnew =>
    have : (L.get_or_create_account nm ty).1 =
        { L with accounts := L.accounts ++ [⟨nm, ty, 0⟩] } :=
      Ledger.ext' _ _ g1 hnew.1 g2
    rw [this]
    exact WF_append L nm ty hWF hnew.2.2

theorem importJEntries_wf (es : List JEntry) :
    ∀ (L : Ledger) (acc : List TEntry), WF L → WF (importJEntries (L, acc) es).1 := by
  induction es with
  | nil => intro L acc h; exact h
  | cons je es ih =>
    intro L acc h
    have hstep : importJEntries (L, acc) (je :: es) =
        importJEntries ((L.get_or_create_account je.account je.account_type).1,
          acc ++ [⟨(L.get_or_create_account je.account je.account_type).2, je.amount⟩]) es := by
      simp [importJEntries]
    rw [hstep]
    exact ih _ _ (WF_get_or_create L je.account je.account_type h)

theorem importRowJSON_wf (L : Ledger) (row : JTxn) (h : WF L) :
    WF (L.importRowJSON row).1 := by
  unfold Ledger.importRowJSON
  obtain ⟨-, -, d3, -, d5⟩ := importJEntries_core row.debits L []
  obtain ⟨-, -, c3, -, c5⟩ :=
    importJEntries_core row.credits (importJEntries (L, []) row.debits).1 []
  have hWF2 : WF (importJEntries ((importJEntries (L, []) row.debits).1, []) row.credits).1 :=
    importJEntries_wf row.credits _ [] (importJEntries_wf row.debits L [] h)
  have hdval : ∀ e ∈ (importJEntries (L, []) row.debits).2,
      e.account <
        (importJEntries ((importJEntries (L, []) row.debits).1, []) row.credits).1.accounts.length := by
    intro e he
    exact lt_of_lt_of_le (d5 (by simp) e he) c3.length_le
  have hcval := c5 (by simp)
  dsimp only
  split
  · next hbal =>
    exact WF_post _ _ hWF2 ⟨hdval, hcval⟩ ((is_balanced_iff _).mp hbal)
  · exact hWF2

theorem importJSON_go_wf (rows : List JTxn) :
    ∀ (L : Ledger) (c : Nat), WF L →
      WF ((rows.foldl
        (fun st row =>
          let p := Ledger.importRowJSON st.1 row
          (p.1, st.2 + p.2)) (L, c)).1) := by
  induction rows with
  | nil => intro L c h; exact h
  | cons r rs ih =>
    intro L c h
    rw [List.foldl_cons]
    dsimp only
    exact ih _ _ (importRowJSON_wf L r h)

theorem importJSON_wf (L : Ledger) (rows : List JTxn) (h : WF L) :
    WF (L.import_transactions_from_json rows).1 := by
  unfold Ledger.import_transactions_from_json
  exact importJSON_go_wf rows L 0 h

theorem csvFold_wf (q : ℚ) (nms : List String) :
    ∀ (L : Ledger) (acc : List TEntry), WF L →
      WF ((nms.foldl
        (fun (st : Ledger × List TEntry) nm =>
          let p := st.1.get_or_create_account nm (Ledger.infer_account_type nm)
          (p.1, st.2 ++ [⟨p.2, q⟩])) (L, acc)).1) := by
  induction nms with
  | nil => intro L acc h; exact h
  | cons nm nms ih =>
    intro L acc h
    rw [List.foldl_cons]
    dsimp only
    exact ih _ _ (WF_get_or_create L nm (Ledger.infer_account_type nm) h)

theorem csvResolve_wf (L : Ledger) (dns : List String) (q : ℚ)
    (cn1 : String) (ca1 : ℚ) (cn2 : String) (ca2 : ℚ) (h : WF L) :
    WF (csvResolve L dns q cn1 ca1 cn2 ca2).1 := by
  have hf := csvFold_wf q dns L [] h
  unfold csvResolve
  dsimp only
  by_cases h1 : cn1 ≠ ""
  · simp only [if_pos h1]
    by_cases h2 : cn2 ≠ "" ∧ 0 < ca2
    · simp only [if_pos h2]
      exact WF_get_or_create _ cn2 _ (WF_get_or_create _ cn1 _ hf)
    · simp only [if_neg h2]
      exact WF_get_or_create _ cn1 _ hf
  · simp only [if_neg h1]
    by_cases h2 : cn2 ≠ "" ∧ 0 < ca2
    · simp only [if_pos h2]
      exact WF_get_or_create _ cn2 _ hf
    · simp only [if_neg h2]
      exact hf

theorem importRowCSV_wf (L : Ledger) (r : CsvRow) (h : WF L) :
    WF (L.importRowCSV r).1 := by
  unfold Ledger.importRowCSV
  cases r.date with
  | none => exact h
  | some rd =>
    dsimp only
    cases parseDate rd with
    | error e => exact h
    | ok d =>
      dsimp only
      cases r.description with
      | none => exact h
      | some desc =>
        dsimp only
        cases parseDec (r.debit_amount.getD (RawDec.num 0)) with
        | error e => exact h
        | ok debit_amount =>
          dsimp only
          cases parseDec (r.credit_amount.getD (RawDec.num 0)) with
          | error e => exact h
          | ok credit_amount =>
            dsimp only
            cases (if truthyDec r.credit_amount_2 then
                parseDec (r.credit_amount_2.getD (RawDec.num 0))
              else Except.ok 0) with
            | error e => exact h
            | ok ca2 =>
              obtain ⟨-, -, -, -, r5, r6⟩ := csvResolve_core L
                (splitNames (r.debit_account.getD ""))
                (debit_amount / ((splitNames (r.debit_account.getD "")).length : ℚ))
                (pyStrip (r.credit_account.getD "")) credit_amount
                (pyStrip (r.credit_account_2.getD "")) ca2
              have hres := csvResolve_wf L (splitNames (r.debit_account.getD ""))
                (debit_amount / ((splitNames (r.debit_account.getD "")).length : ℚ))
                (pyStrip (r.credit_account.getD "")) credit_amount
                (pyStrip (r.credit_account_2.getD "")) ca2 h
              dsimp only
              split
              · next hbal =>
                exact WF_post _ _ hres ⟨r5, r6⟩ ((is_balanced_iff _).mp hbal)
              · exact hres

theorem importCSVGo_wf (rows : List CsvRow) :
    ∀ (L : Ledger) (c : Nat), WF L → WF (Ledger.importCSVGo L c rows).1 := by
  induction rows with
  | nil => intro L c h; exact h
  | cons r rs ih =>
    intro L c h
    unfold Ledger.importCSVGo
    rcases hr : Ledger.importRowCSV L r with ⟨L', e?⟩
    have hL' : WF L' := by
      have hh := importRowCSV_wf L r h
      rw [hr] at hh
      exact hh
    cases e? with
    | none => exact ih L' (c + 1) hL'
    | some e =>
      dsimp only
      split
      · exact ih L' c hL'
      · exact hL'

theorem importCSV_wf (L : Ledger) (rows : List CsvRow) (h : WF L) :
    WF (L.import_transactions_from_csv rows).1 := by
  unfold Ledger.import_transactions_from_csv
  exact importCSVGo_wf rows L 0 h

theorem WF_record (L L' : Ledger) (d : Date) (desc : String) (entries : List TEntry)
    (hWF : WF L) (hval : ∀ e ∈ entries, e.account < L.accounts.length)
    (hok : L.record_transaction d desc entries = .ok L') : WF L' := by
  obtain ⟨hbal, hL'⟩ := (record_ok_iff L d desc entries L').mp hok
  obtain ⟨hd, hc⟩ := routeAll_valid L.accounts L.accounts.length d desc entries hval
  rw [hL']
  exact WF_post L _ hWF ⟨hd, hc⟩ ((is_balanced_iff _).mp hbal)

theorem reach_wf {L : Ledger} (h : Reach L) : WF L := by
  induction h with
  | init nm => exact WF_new nm
  | create nm ty hR hfresh ih => exact WF_append _ nm ty ih hfresh
  | getOrCreate nm ty hR ih => exact WF_get_or_create _ nm ty ih
  | record d desc entries hR hval hok ih => exact WF_record _ _ d desc entries ih hval hok
  | importJSON rows hR ih => exact importJSON_wf _ rows ih
  | importCSV rows hR ih => exact importCSV_wf _ rows ih

theorem c9_counterexample :
    ¬ (namesOf ((((Ledger.new "B").create_account "Cash" .ASSET).1.create_account
        "Cash" .ASSET).1).accounts).Nodup := by decide

theorem c9_amended_unique_names {L : Ledger} (h : Reach L) :
    (namesOf L.accounts).Nodup :=
  (reach_wf h).nodup

theorem c9_amended_unique_names_witness :
    (namesOf ((((Ledger.new "B").get_or_create_account "Cash" .ASSET).1.get_or_create_account
        "Cash" .LIABILITY).1).accounts).Nodup :=
  c9_amended_unique_names
    (Reach.getOrCreate "Cash" .LIABILITY (Reach.getOrCreate "Cash" .ASSET (Reach.init "B")))

theorem getD_prefix_stable (l l' : List Account) (hp : l <+: l') (i : Nat) (hi : i < l.length)
    (d : Account) : l'.getD i d = l.getD i d := by
  obtain ⟨t, rfl⟩ := hp
  rw [List.getD_append _ _ _ _ hi]

theorem nameAt_prefix_stable (l l' : List Account) (hp : l <+: l') (i : Nat) (hi : i < l.length) :
    nameAt l' i = nameAt l i := by
  unfold nameAt
  rw [getD_prefix_stable l l' hp i hi]

theorem typeAt_prefix_stable (l l' : List Account) (hp : l <+: l') (i : Nat) (hi : i < l.length) :
    typeAt l' i = typeAt l i := by
  unfold typeAt
  rw [getD_prefix_stable l l' hp i hi]

theorem resolveEntry_prefix_stable (l l' : List Account) (hp : l <+: l') (e : TEntry)
    (he : e.account < l.length) : resolveEntry l' e = resolveEntry l e := by
  unfold resolveEntry
  rw [nameAt_prefix_stable l l' hp _ he, typeAt_prefix_stable l l' hp _ he]

theorem foldl_debits_nameAt (es : List TEntry) :
    ∀ (l : List Account) (j : Nat),
      nameAt (es.foldl (fun acc e => updateAt acc e.account (fun a => a.debit e.amount)) l) j
        = nameAt l j := by
  induction es with
  | nil => intro l j; rfl
  | cons e es ih =>
    intro l j
    rw [List.foldl_cons, ih, nameAt_updateAt]
    exact fun a => Account.debit_name a e.amount

theorem foldl_credits_nameAt (es : List TEntry) :
    ∀ (l : List Account) (j : Nat),
      nameAt (es.foldl (fun acc e => updateAt acc e.account (fun a => a.credit e.amount)) l) j
        = nameAt l j := by
  induction es with
  | nil => intro l j; rfl
  | cons e es ih =>
    intro l j
    rw [List.foldl_cons, ih, nameAt_updateAt]
    exact fun a => Account.credit_name a e.amount

theorem post_nameAt (t : Transaction) (l : List Account) (j : Nat) :
    nameAt (t.post l) j = nameAt l j := by
  unfold Transaction.post
  rw [foldl_credits_nameAt, foldl_debits_nameAt]

theorem resolveEntry_post (tp : Transaction) (l : List Account) (e : TEntry) :
    resolveEntry (tp.post l) e = resolveEntry l e := by
  unfold resolveEntry
  rw [post_nameAt, post_typeAt]

theorem resolveTxn_prefix_stable (l l' : List Account) (hp : l <+: l') (t : Transaction)
    (hv : entriesValidIn l.length t) : resolveTxn l' t = resolveTxn l t := by
  unfold resolveTxn
  congr 1
  · exact List.map_congr_left fun e he => resolveEntry_prefix_stable l l' hp e (hv.1 e he)
  · exact List.map_congr_left fun e he => resolveEntry_prefix_stable l l' hp e (hv.2 e he)

theorem resolveTxn_post (tp : Transaction) (l : List Account) (t : Transaction) :
    resolveTxn (tp.post l) t = resolveTxn l t := by
  unfold resolveTxn
  congr 1
  · exact List.map_congr_left fun e _ => resolveEntry_post tp l e
  · exact List.map_congr_left fun e _ => resolveEntry_post tp l e

theorem resolve_amounts (A : List Account) (es' : List TEntry) (es : List JEntry)
    (h : es'.map (resolveEntry A) = es) : sumAmounts es' = sumJ es := by
  subst h
  unfold sumAmounts sumJ
  rw [List.map_map]
  rfl

theorem importJEntries_sim (es : List JEntry) :
    ∀ (L : Ledger) (acc : List TEntry),
      WF L →
      (∀ je ∈ es, ∀ a ∈ L.accounts, je.account = a.name → je.account_type = a.type) →
      (∀ je ∈ es, ∀ je' ∈ es, je.account = je'.account → je.account_type = je'.account_type) →
      ∃ es' : List TEntry,
        (importJEntries (L, acc) es).2 = acc ++ es' ∧
        (∀ e ∈ es', e.account < (importJEntries (L, acc) es).1.accounts.length) ∧
        es'.map (resolveEntry (importJEntries (L, acc) es).1.accounts) = es ∧
        (∀ a ∈ (importJEntries (L, acc) es).1.accounts,
          a ∈ L.accounts ∨ ∃ je ∈ es, a.name = je.account ∧ a.type = je.account_type) := by
  induction es with
  | nil =>
    intro L acc _ _ _
    exact ⟨[], by simp [importJEntries], by simp, rfl, fun a ha => Or.inl ha⟩
  | cons je es ih =>
    intro L acc hWF hconsL hconsInt
    have hstep : importJEntries (L, acc) (je :: es) =
        importJEntries ((L.get_or_create_account je.account je.account_type).1,
          acc ++ [⟨(L.get_or_create_account je.account je.account_type).2, je.amount⟩]) es := by
      simp [importJEntries]
    obtain ⟨g1, g2, g3, g4, g5, g6, hcases⟩ := get_or_create_spec L je.account je.account_type
    have htype : typeAt (L.get_or_create_account je.account je.account_type).1.accounts
        (L.get_or_create_account je.account je.account_type).2 = je.account_type := by
      rcases hcases with heq | ⟨heq, hidx, -⟩
      · have hi' : (L.get_or_create_account je.account je.account_type).2 <
            L.accounts.length := by rw [← heq]; exact g4
        have hmem : L.accounts.getD (L.get_or_create_account je.account je.account_type).2
            default ∈ L.accounts := by
          rw [List.getD_eq_getElem _ _ hi']
          exact List.getElem_mem hi'
        have hnm : je.account =
            (L.accounts.getD (L.get_or_create_account je.account je.account_type).2
              default).name := by
          have := g5
          rw [heq] at this
          exact this.symm
        have := hconsL je (by simp) _ hmem hnm
        rw [heq]
        exact this.symm
      · rw [heq, hidx]
        unfold typeAt
        rw [List.getD_append_right _ _ _ _ (le_refl _)]
        simp
    have hWF1 := WF_get_or_create L je.account je.account_type hWF
    have hconsL1 : ∀ je' ∈ es,
        ∀ a ∈ (L.get_or_create_account je.account je.account_type).1.accounts,
          je'.account = a.name → je'.account_type = a.type := by
      intro je' hje' a ha heq'
      rcases hcases with heq | ⟨heq, -, -⟩
      · rw [heq] at ha
        exact hconsL je' (by simp [hje']) a ha heq'
      · rw [heq] at ha
        rcases List.mem_append.mp ha with ha | ha
        · exact hconsL je' (by simp [hje']) a ha heq'
        · simp only [List.mem_singleton] at ha
          subst ha
          exact hconsInt je' (by simp [hje']) je (by simp) heq'
    have hconsInt1 : ∀ je' ∈ es, ∀ je'' ∈ es,
        je'.account = je''.account → je'.account_type = je''.account_type := by
      intro je' h' je'' h'' hh
      exact hconsInt je' (by simp [h']) je'' (by simp [h'']) hh
    obtain ⟨es'', i1, i2, i3, i4⟩ :=
      ih (L.get_or_create_account je.account je.account_type).1
        (acc ++ [⟨(L.get_or_create_account je.account je.account_type).2, je.amount⟩])
        hWF1 hconsL1 hconsInt1
    obtain ⟨-, -, c3, -, -⟩ := importJEntries_core es
      (L.get_or_create_account je.account je.account_type).1
      (acc ++ [⟨(L.get_or_create_account je.account je.account_type).2, je.amount⟩])
    rw [hstep]
    refine ⟨⟨(L.get_or_create_account je.account je.account_type).2, je.amount⟩ :: es'',
      ?_, ?_, ?_, ?_⟩
    · rw [i1]
      simp
    · intro e he
      rcases List.mem_cons.mp he with he | he
      · subst he
        exact lt_of_lt_of_le g4 c3.length_le
      · exact i2 e he
    · rw [List.map_cons, i3]
      congr 1
      have hn := nameAt_prefix_stable _ _ c3 _ g4
      have ht := typeAt_prefix_stable _ _ c3 _ g4
      unfold resolveEntry
      rw [hn, ht, g5, htype]
    · intro a ha
      rcases i4 a ha with ha' | ⟨je', hje', hh⟩
      · rcases hcases with heq | ⟨heq, -, -⟩
        · rw [heq] at ha'
          exact Or.inl ha'
        · rw [heq] at ha'
          rcases List.mem_append.mp ha' with ha'' | ha''
          · exact Or.inl ha''
          · simp only [List.mem_singleton] at ha''
            subst ha''
            exact Or.inr ⟨je, by simp, rfl, rfl⟩
      · exact Or.inr ⟨je', by simp [hje'], hh⟩

theorem mem_post_pairs (t : Transaction) (l : List Account) (a : Account)
    (ha : a ∈ t.post l) : ∃ b ∈ l, a.name = b.name ∧ a.type = b.type := by
  obtain ⟨j, hj, hja⟩ := List.mem_iff_getElem.mp ha
  have hj' : j < l.length := by rw [← Transaction.post_length t l]; exact hj
  refine ⟨l[j], List.getElem_mem hj', ?_, ?_⟩
  · calc a.name = (t.post l)[j].name := by rw [hja]
      _ = nameAt (t.post l) j := by unfold nameAt; rw [List.getD_eq_getElem _ _ hj]
      _ = nameAt l j := post_nameAt t l j
      _ = l[j].name := by unfold nameAt; rw [List.getD_eq_getElem _ _ hj']
  · calc a.type = (t.post l)[j].type := by rw [hja]
      _ = typeAt (t.post l) j := by unfold typeAt; rw [List.getD_eq_getElem _ _ hj]
      _ = typeAt l j := post_typeAt t l j
      _ = l[j].type := by unfold typeAt; rw [List.getD_eq_getElem _ _ hj']

theorem importRowJSON_sim (L : Ledger) (row : JTxn)
    (hWF : WF L)
    (hbal : sumJ row.debits = sumJ row.credits)
    (hconsL : ∀ je ∈ row.debits ++ row.credits, ∀ a ∈ L.accounts,
      je.account = a.name → je.account_type = a.type)
    (hconsInt : ∀ je ∈ row.debits ++ row.credits, ∀ je' ∈ row.debits ++ row.credits,
      je.account = je'.account → je.account_type = je'.account_type) :
    (L.importRowJSON row).2 = 1 ∧
    (L.importRowJSON row).1.export_transactions_to_json =
      L.export_transactions_to_json ++ [row] ∧
    (∀ a ∈ (L.importRowJSON row).1.accounts,
      (∃ b ∈ L.accounts, a.name = b.name ∧ a.type = b.type) ∨
      ∃ je ∈ row.debits ++ row.credits, a.name = je.account ∧ a.type = je.account_type) := by
  have hWF1 := importJEntries_wf row.debits L [] hWF
  obtain ⟨d', d1, d2, d3, d4⟩ := importJEntries_sim row.debits L [] hWF
    (fun je hje => hconsL je (List.mem_append_left _ hje))
    (fun je hje je' hje' => hconsInt je (List.mem_append_left _ hje)
      je' (List.mem_append_left _ hje'))
  obtain ⟨-, t1, p1, -, -⟩ := importJEntries_core row.debits L []
  have hconsL2 : ∀ je ∈ row.credits, ∀ a ∈ (importJEntries (L, []) row.debits).1.accounts,
      je.account = a.name → je.account_type = a.type := by
    intro je hje a ha heq
    rcases d4 a ha with ha' | ⟨je', hje', hn, ht⟩
    · exact hconsL je (List.mem_append_right _ hje) a ha' heq
    · rw [ht]
      exact hconsInt je (List.mem_append_right _ hje) je' (List.mem_append_left _ hje')
        (by rw [heq, hn])
  obtain ⟨c', c1, c2, c3, c4⟩ := importJEntries_sim row.credits
    (importJEntries (L, []) row.debits).1 [] hWF1 hconsL2
    (fun je hje je' hje' => hconsInt je (List.mem_append_right _ hje)
      je' (List.mem_append_right _ hje'))
  obtain ⟨-, t2, p2, -, -⟩ := importJEntries_core row.credits
    (importJEntries (L, []) row.debits).1 []
  have hd1 : (importJEntries (L, []) row.debits).2 = d' := by simpa using d1
  have hc1 : (importJEntries ((importJEntries (L, []) row.debits).1, []) row.credits).2
      = c' := by simpa using c1
  have hsum1 : sumAmounts (importJEntries (L, []) row.debits).2 = sumJ row.debits := by
    rw [hd1]; exact resolve_amounts _ _ _ d3
  have hsum2 : sumAmounts
      (importJEntries ((importJEntries (L, []) row.debits).1, []) row.credits).2
      = sumJ row.credits := by
    rw [hc1]; exact resolve_amounts _ _ _ c3
  have hbalt : (Transaction.mk row.date row.description
      (importJEntries (L, []) row.debits).2
      (importJEntries ((importJEntries (L, []) row.debits).1, []) row.credits).2).is_balanced
      = true := by
    rw [is_balanced_iff]
    show sumAmounts (importJEntries (L, []) row.debits).2 = _
    rw [hsum1, hsum2, hbal]
  unfold Ledger.importRowJSON
  dsimp only
  rw [if_pos hbalt]
  refine ⟨rfl, ?_, ?_⟩
  · show (List.map (resolveTxn _) (_ ++ [_])) = _
    rw [List.map_append]
    congr 1
    · rw [t2, t1]
      show List.map _ L.transactions = List.map _ L.transactions
      apply List.map_congr_left
      intro t' ht'
      rw [resolveTxn_post]
      exact resolveTxn_prefix_stable _ _ (p1.trans p2) t' (hWF.valid t' ht')
    · rw [List.map_cons, List.map_nil]
      congr 1
      rw [resolveTxn_post]
      have e1 : List.map (resolveEntry
          (importJEntries ((importJEntries (L, []) row.debits).1, []) row.credits).1.accounts)
          (importJEntries (L, []) row.debits).2 = row.debits := by
        rw [hd1]
        calc List.map (resolveEntry
              (importJEntries ((importJEntries (L, []) row.debits).1, [])
                row.credits).1.accounts) d'
            = List.map (resolveEntry (importJEntries (L, []) row.debits).1.accounts) d' :=
              List.map_congr_left (fun e he => resolveEntry_prefix_stable _ _ p2 e (d2 e he))
          _ = row.debits := d3
      have e2 : List.map (resolveEntry
          (importJEntries ((importJEntries (L, []) row.debits).1, []) row.credits).1.accounts)
          (importJEntries ((importJEntries (L, []) row.debits).1, []) row.credits).2
          = row.credits := by
        rw [hc1]
        exact c3
      unfold resolveTxn
      rw [e1, e2]
  · intro a ha
    obtain ⟨b, hb, hab1, hab2⟩ := mem_post_pairs _ _ a ha
    rcases c4 b hb with hb' | ⟨je', hje', hn, ht⟩
    · rcases d4 b hb' with hb'' | ⟨je', hje', hn, ht⟩
      · exact Or.inl ⟨b, hb'', hab1, hab2⟩
      · exact Or.inr ⟨je', List.mem_append_left _ hje', by rw [hab1, hn], by rw [hab2, ht]⟩
    · exact Or.inr ⟨je', List.mem_append_right _ hje', by rw [hab1, hn], by rw [hab2, ht]⟩

theorem importJSON_sim (rows : List JTxn) :
    ∀ (L : Ledger) (c : Nat),
      WF L →
      (∀ row ∈ rows, sumJ row.debits = sumJ row.credits) →
      accountsConsistent rows L →
      typeConsistent rows →
      ((rows.foldl
        (fun st row =>
          let p := Ledger.importRowJSON st.1 row
          (p.1, st.2 + p.2)) (L, c)).2 = c + rows.length) ∧
      ((rows.foldl
        (fun st row =>
          let p := Ledger.importRowJSON st.1 row
          (p.1, st.2 + p.2)) (L, c)).1.export_transactions_to_json
        = L.export_transactions_to_json ++ rows) := by
  induction rows with
  | nil => intro L c _ _ _ _; exact ⟨rfl, by simp⟩
  | cons row rows ih =>
    intro L c hWF hbalr hconsA hconsT
    obtain ⟨r1, r2, r3⟩ := importRowJSON_sim L row hWF (hbalr row (by simp))
      (fun je hje a ha heq => hconsA a ha row (by simp) je hje heq)
      (fun je hje je' hje' => hconsT row (by simp) row (by simp) je hje je' hje')
    have hWF1 := importRowJSON_wf L row hWF
    have hconsA1 : accountsConsistent rows (L.importRowJSON row).1 := by
      intro a ha row' hrow' je hje heq
      rcases r3 a ha with ⟨b, hb, hn, ht⟩ | ⟨je', hje', hn, ht⟩
      · rw [ht]
        exact hconsA b hb row' (by simp [hrow']) je hje (by rw [← hn, ← heq])
      · rw [ht]
        exact hconsT row' (by simp [hrow']) row (by simp) je hje je' hje' (by rw [heq, hn])
    have hconsT1 : typeConsistent rows := by
      intro r1' h1 r2' h2 je hje je' hje' hh
      exact hconsT r1' (by simp [h1]) r2' (by simp [h2]) je hje je' hje' hh
    obtain ⟨i1, i2⟩ := ih (L.importRowJSON row).1 (c + (L.importRowJSON row).2) hWF1
      (fun r hr => hbalr r (by simp [hr])) hconsA1 hconsT1
    rw [List.foldl_cons]
    dsimp only
    constructor
    · rw [i1, r1]
      simp only [List.length_cons]
      omega
    · rw [i2, r2]
      simp

theorem export_row_balanced {L : Ledger} (hWF : WF L) :
    ∀ row ∈ L.export_transactions_to_json, sumJ row.debits = sumJ row.credits := by
  intro row hrow
  obtain ⟨t, ht, rfl⟩ := List.mem_map.mp hrow
  show sumJ (t.debits.map (resolveEntry L.accounts)) = sumJ (t.credits.map (resolveEntry L.accounts))
  rw [← resolve_amounts L.accounts t.debits _ rfl, ← resolve_amounts L.accounts t.credits _ rfl]
  exact hWF.bal t ht

theorem nameAt_memNames (l : List Account) (i : Nat) (hi : i < l.length) :
    nameAt l i ∈ namesOf l := by
  unfold nameAt namesOf
  rw [List.getD_eq_getElem _ _ hi]
  exact List.mem_map.mpr ⟨l[i], List.getElem_mem hi, rfl⟩

theorem nameAt_inj (l : List Account) (hnd : (namesOf l).Nodup) (i j : Nat)
    (hi : i < l.length) (hj : j < l.length) (h : nameAt l i = nameAt l j) : i = j := by
  have hlen : (namesOf l).length = l.length := by simp [namesOf]
  have hi' : i < (namesOf l).length := by omega
  have hj' : j < (namesOf l).length := by omega
  apply (@List.Nodup.getElem_inj_iff _ (namesOf l) hnd i hi' j hj').mp
  show (l.map (·.name))[i] = (l.map (·.name))[j]
  rw [List.getElem_map, List.getElem_map]
  unfold nameAt at h
  rw [List.getD_eq_getElem _ _ hi, List.getD_eq_getElem _ _ hj] at h
  exact h

theorem export_typeConsistent {L : Ledger} (hWF : WF L) :
    typeConsistent L.export_transactions_to_json := by
  intro row hrow row' hrow' je hje je' hje' heq
  obtain ⟨t, ht, rfl⟩ := List.mem_map.mp hrow
  obtain ⟨t', ht', rfl⟩ := List.mem_map.mp hrow'
  have hmem : ∀ {u : Transaction}, u ∈ L.transactions →
      ∀ {w : JEntry}, w ∈ (resolveTxn L.accounts u).debits ++ (resolveTxn L.accounts u).credits →
      ∃ e, (e ∈ u.debits ++ u.credits) ∧ e.account < L.accounts.length ∧
        w = resolveEntry L.accounts e := by
    intro u hu w hw
    have : w ∈ (u.debits ++ u.credits).map (resolveEntry L.accounts) := by
      rw [List.map_append]
      exact hw
    obtain ⟨e, he, rfl⟩ := List.mem_map.mp this
    refine ⟨e, he, ?_, rfl⟩
    rcases List.mem_append.mp he with h | h
    · exact (hWF.valid u hu).1 e h
    · exact (hWF.valid u hu).2 e h
  obtain ⟨e, he, hev, rfl⟩ := hmem ht hje
  obtain ⟨e', he', hev', rfl⟩ := hmem ht' hje'
  have : e.account = e'.account :=
    nameAt_inj L.accounts hWF.nodup _ _ hev hev' heq
  show typeAt L.accounts e.account = typeAt L.accounts e'.account
  rw [this]

theorem filter_name_unique (name : String) :
    ∀ (l : List Account), (namesOf l).Nodup → ∀ j, j < l.length → nameAt l j = name →
      l.filter (fun a => a.name == name) = [l.getD j default] := by
  intro l
  induction l with
  | nil => intro _ j hj; simp at hj
  | cons a as ih =>
    intro hnd j hj hn
    have hnd' : a.name ∉ namesOf as ∧ (namesOf as).Nodup := by
      have : namesOf (a :: as) = a.name :: namesOf as := rfl
      rw [this] at hnd
      exact List.nodup_cons.mp hnd
    cases j with
    | zero =>
      have ha : a.name = name := hn
      rw [List.filter_cons_of_pos (by simp [ha])]
      have : as.filter (fun x => x.name == name) = [] := by
        rw [List.filter_eq_nil_iff]
        intro b hb
        simp only [beq_iff_eq]
        intro hbn
        exact hnd'.1 (by rw [ha, ← hbn]; exact List.mem_map.mpr ⟨b, hb, rfl⟩)
      rw [this]
      rfl
    | succ j' =>
      have hj' : j' < as.length := by simpa using hj
      have hn' : nameAt as j' = name := hn
      have hmemname : name ∈ namesOf as := by
        rw [← hn']
        exact nameAt_memNames as j' hj'
      have ha : a.name ≠ name := fun hh => hnd'.1 (hh ▸ hmemname)
      rw [List.filter_cons_of_neg (by simp [ha])]
      exact ih hnd'.2 j' hj' hn'

theorem balanceOfName_export {L : Ledger} (hWF : WF L) (name : String) :
    balanceOfName L name = jNetName L.export_transactions_to_json name := by
  by_cases hex : ∃ j, j < L.accounts.length ∧ nameAt L.accounts j = name
  · obtain ⟨j, hj, hjn⟩ := hex
    have hbn : balanceOfName L name = (L.accounts.getD j default).balance := by
      unfold balanceOfName
      rw [filter_name_unique name L.accounts hWF.nodup j hj hjn]
      simp
    have hside : ∀ (es : List TEntry), (∀ e ∈ es, e.account < L.accounts.length) →
        (((es.map (resolveEntry L.accounts)).filter (fun je => je.account == name)).map
          (fun je => dSign je.account_type * je.amount)).sum
        = dSign (typeAt L.accounts j) * sumAmounts (es.filter (fun e => e.account == j)) := by
      intro es hv
      rw [List.filter_map]
      have hpred : ∀ e ∈ es,
          ((fun je => je.account == name) ∘ (resolveEntry L.accounts)) e
            = (fun e : TEntry => e.account == j) e := by
        intro e he
        show ((resolveEntry L.accounts e).account == name) = (e.account == j)
        have hre : (resolveEntry L.accounts e).account = nameAt L.accounts e.account := rfl
        rw [hre]
        by_cases hc : e.account = j
        · subst hc
          simp [hjn]
        · have hnn : nameAt L.accounts e.account ≠ name := by
            intro hcon
            exact hc (nameAt_inj L.accounts hWF.nodup _ _ (hv e he) hj (hcon.trans hjn.symm))
          simp [hnn, hc]
      rw [List.filter_congr hpred, List.map_map]
      have hmc : ∀ e ∈ es.filter (fun e : TEntry => e.account == j),
          ((fun je => dSign je.account_type * je.amount) ∘ resolveEntry L.accounts) e
            = (fun e : TEntry => dSign (typeAt L.accounts j) * e.amount) e := by
        intro e he
        have hacc : e.account = j := by simpa using (List.mem_filter.mp he).2
        show dSign (typeAt L.accounts e.account) * e.amount = _
        rw [hacc]
      rw [List.map_congr_left hmc, List.sum_map_mul_left]
      rfl
    have hrow : ∀ t ∈ L.transactions,
        ((((resolveTxn L.accounts t).debits.filter (fun je => je.account == name)).map
          (fun je => dSign je.account_type * je.amount)).sum -
        (((resolveTxn L.accounts t).credits.filter (fun je => je.account == name)).map
          (fun je => dSign je.account_type * je.amount)).sum)
        = dSign (typeAt L.accounts j) * entryFlowAt t j := by
      intro t ht
      have hcd : (resolveTxn L.accounts t).debits = t.debits.map (resolveEntry L.accounts) := rfl
      have hcc : (resolveTxn L.accounts t).credits =
        t.credits.map (resolveEntry L.accounts) := rfl
      rw [hcd, hcc, hside t.debits (hWF.valid t ht).1, hside t.credits (hWF.valid t ht).2]
      unfold entryFlowAt
      ring
    calc balanceOfName L name
        = dSign (typeAt L.accounts j) * flowSum L.transactions j := by
          rw [hbn]; exact hWF.char j hj
      _ = (L.transactions.map
            (fun t => dSign (typeAt L.accounts j) * entryFlowAt t j)).sum := by
          unfold flowSum
          rw [List.sum_map_mul_left]
      _ = jNetName L.export_transactions_to_json name := by
          unfold jNetName Ledger.export_transactions_to_json
          rw [List.map_map]
          congr 1
          exact (List.map_congr_left (fun t ht => (hrow t ht))).symm
  · push_neg at hex
    have habs : ∀ a ∈ L.accounts, a.name ≠ name := by
      intro a ha
      obtain ⟨i, hi, rfl⟩ := List.mem_iff_getElem.mp ha
      have : nameAt L.accounts i = L.accounts[i].name := by
        unfold nameAt
        rw [List.getD_eq_getElem _ _ hi]
      rw [← this]
      exact hex i hi
    have hb0 : balanceOfName L name = 0 := by
      unfold balanceOfName
      have : L.accounts.filter (fun a => a.name == name) = [] := by
        rw [List.filter_eq_nil_iff]
        intro a ha
        simp only [beq_iff_eq]
        exact habs a ha
      rw [this]
      rfl
    have hfilter0 : ∀ (es : List TEntry), (∀ e ∈ es, e.account < L.accounts.length) →
        (es.map (resolveEntry L.accounts)).filter (fun je => je.account == name) = [] := by
      intro es hv
      rw [List.filter_eq_nil_iff]
      intro je hje
      obtain ⟨e, he, rfl⟩ := List.mem_map.mp hje
      simp only [beq_iff_eq]
      show nameAt L.accounts e.account ≠ name
      have hvm : e.account < L.accounts.length := hv e he
      have : nameAt L.accounts e.account = (L.accounts.getD e.account default).name := rfl
      rw [this]
      apply habs
      rw [List.getD_eq_getElem _ _ hvm]
      exact List.getElem_mem hvm
    rw [hb0]
    unfold jNetName
    symm
    apply List.sum_eq_zero
    intro x hx
    obtain ⟨row, hrowm, rfl⟩ := List.mem_map.mp hx
    obtain ⟨t, ht, rfl⟩ := List.mem_map.mp hrowm
    have hcd : (resolveTxn L.accounts t).debits = t.debits.map (resolveEntry L.accounts) := rfl
    have hcc : (resolveTxn L.accounts t).credits =
      t.credits.map (resolveEntry L.accounts) := rfl
    rw [hcd, hcc, hfilter0 t.debits (hWF.valid t ht).1, hfilter0 t.credits (hWF.valid t ht).2]
    simp

theorem c4_json_roundtrip {L : Ledger} (h : Reach L) (nm : String) :
    ((Ledger.new nm).import_transactions_from_json L.export_transactions_to_json).2
      = L.transactions.length ∧
    ((Ledger.new nm).import_transactions_from_json
        L.export_transactions_to_json).1.export_transactions_to_json
      = L.export_transactions_to_json ∧
    ∀ name : String,
      balanceOfName ((Ledger.new nm).import_transactions_from_json
          L.export_transactions_to_json).1 name = balanceOfName L name := by
  have hWF := reach_wf h
  have hWFn := WF_new nm
  have hconsA : accountsConsistent L.export_transactions_to_json (Ledger.new nm) := by
    intro a ha
    simp [Ledger.new] at ha
  obtain ⟨s1, s2⟩ := importJSON_sim L.export_transactions_to_json (Ledger.new nm) 0 hWFn
    (export_row_balanced hWF) hconsA (export_typeConsistent hWF)
  have hs1 : ((Ledger.new nm).import_transactions_from_json L.export_transactions_to_json).2
      = L.transactions.length := by
    unfold Ledger.import_transactions_from_json
    rw [s1]
    simp [Ledger.export_transactions_to_json]
  have hs2 : ((Ledger.new nm).import_transactions_from_json
      L.export_transactions_to_json).1.export_transactions_to_json
      = L.export_transactions_to_json := by
    unfold Ledger.import_transactions_from_json
    rw [s2]
    have hnil : (Ledger.new nm).export_transactions_to_json = [] := rfl
    rw [hnil]
    simp
  refine ⟨hs1, hs2, ?_⟩
  intro name
  have hRimp : Reach ((Ledger.new nm).import_transactions_from_json
      L.export_transactions_to_json).1 :=
    Reach.importJSON _ (Reach.init nm)
  rw [balanceOfName_export (reach_wf hRimp) name, balanceOfName_export hWF name, hs2]

theorem c4_json_roundtrip_witness :
    (((Ledger.new "F").import_transactions_from_json
        (⟨"B", [⟨"Cash", .ASSET, 1000⟩, ⟨"Capital", .EQUITY, 1000⟩],
          [⟨⟨1397, 1, 1⟩, "seed", [⟨0, 1000⟩],
            [⟨1, 1000⟩]⟩]⟩ : Ledger).export_transactions_to_json).2
      = (⟨"B", [⟨"Cash", .ASSET, 1000⟩, ⟨"Capital", .EQUITY, 1000⟩],
          [⟨⟨1397, 1, 1⟩, "seed", [⟨0, 1000⟩],
            [⟨1, 1000⟩]⟩]⟩ : Ledger).transactions.length) ∧
    (((Ledger.new "F").import_transactions_from_json
        (⟨"B", [⟨"Cash", .ASSET, 1000⟩, ⟨"Capital", .EQUITY, 1000⟩],
          [⟨⟨1397, 1, 1⟩, "seed", [⟨0, 1000⟩],
            [⟨1, 1000⟩]⟩]⟩ : Ledger).export_transactions_to_json).1.export_transactions_to_json
      = (⟨"B", [⟨"Cash", .ASSET, 1000⟩, ⟨"Capital", .EQUITY, 1000⟩],
          [⟨⟨1397, 1, 1⟩, "seed", [⟨0, 1000⟩],
            [⟨1, 1000⟩]⟩]⟩ : Ledger).export_transactions_to_json) ∧
    balanceOfName ((Ledger.new "F").import_transactions_from_json
        (⟨"B", [⟨"Cash", .ASSET, 1000⟩, ⟨"Capital", .EQUITY, 1000⟩],
          [⟨⟨1397, 1, 1⟩, "seed", [⟨0, 1000⟩],
            [⟨1, 1000⟩]⟩]⟩ : Ledger).export_transactions_to_json).1 "Cash"
      = balanceOfName (⟨"B", [⟨"Cash", .ASSET, 1000⟩, ⟨"Capital", .EQUITY, 1000⟩],
          [⟨⟨1397, 1, 1⟩, "seed", [⟨0, 1000⟩],
            [⟨1, 1000⟩]⟩]⟩ : Ledger) "Cash" :=
  have hR : Reach (⟨"B", [⟨"Cash", .ASSET, 1000⟩, ⟨"Capital", .EQUITY, 1000⟩],
      [⟨⟨1397, 1, 1⟩, "seed", [⟨0, 1000⟩], [⟨1, 1000⟩]⟩]⟩ : Ledger) :=
    Reach.record ⟨1397, 1, 1⟩ "seed" [⟨0, 1000⟩, ⟨1, 1000⟩]
      (Reach.create "Capital" .EQUITY
        (Reach.create "Cash" .ASSET (Reach.init "B") (by decide))
        (by decide))
      (by decide)
      (by simp [Ledger.record_transaction, Ledger.routeAll, Ledger.routeEntry,
        Transaction.is_balanced, sumAmounts, Transaction.post, Transaction.add_debit,
        Transaction.add_credit, Ledger.create_account, Ledger.new, updateAt,
        Account.debit, Account.credit])
  ⟨(c4_json_roundtrip hR "F").1, (c4_json_roundtrip hR "F").2.1,
    (c4_json_roundtrip hR "F").2.2 "Cash"⟩
